import Mathlib

/-!
# coxsurv2: risk-set totals for Cox-model survival curves

A shallow embedding of `src/src/coxsurv2.c` and theorems about it.

Modelling conventions
* `double` values are rationals (`ℚ`), so arithmetic is exact.
* A C array is the memory its pointer addresses: a total function on `Int`.
  The cells `0 .. nused-1` are the array proper; what a read outside them
  returns is whatever the function holds there, so a theorem that quantifies
  over the input says nothing about such cells.
* Locals that the C code reads before assigning them (`j2`, the scratch
  vectors) start from the values of an `Uninit` record.
* Loops whose trip count is not fixed beforehand take fuel and return `none`
  when it runs out.
* Every write of an output row is appended to a list, in program order.
* A quotient with divisor 0 is 0 in `ℚ`, where the C code yields an infinity
  or a NaN; no theorem below rests on such a quotient.
* The call `R_CheckUserInterrupt()` of line 119 is left out: the runs modelled
  are the ones that are not interrupted.
-/

namespace Coxsurv2

/-- The arguments of `coxsurv2` after the block "map the input data". -/
structure Input where
  /-- Number of report times, `LENGTH(otime2)`. -/
  ntime : Nat
  otime : Int → ℚ
  /-- Number of subject rows, `nrows(y2)`. -/
  nused : Nat
  tstart : Int → ℚ
  tstop : Int → ℚ
  status : Int → ℚ
  wt : Int → ℚ
  sort1 : Int → Int
  sort2 : Int → Int
  strata : Int → Int
  position : Int → Int
  risk : Int → ℚ
  /-- Number of covariates, `ncols(xmat2)`. -/
  nvar : Nat
  /-- The covariate `xmat[k][i]`. -/
  xmat : Nat → Int → ℚ

/-- The array `double n[12]` of running totals. -/
structure Counts where
  n0 : ℚ
  n1 : ℚ
  n2 : ℚ
  n3 : ℚ
  n4 : ℚ
  n5 : ℚ
  n6 : ℚ
  n7 : ℚ
  n8 : ℚ
  n9 : ℚ
  n10 : ℚ
  n11 : ℚ

/-- What the locals hold before their first assignment. -/
structure Uninit where
  i2 : Int
  j2 : Int
  n : Counts
  xsum1 : Nat → ℚ
  xsum2 : Nat → ℚ
  /-- Contents of the memory around `atrisk`. -/
  atrisk : Int → Int

/-- One write of an output row: `rn[.][irow]`, `rx1[.][irow]`, `rx2[.][irow]`.
The fields `ii`, `jj`, `istrat`, `dtime`, `xsum1` and `grown` are not stored
by the C code; they record the loop counters and locals at the write. -/
structure OutRow where
  ii : Nat
  jj : Nat
  istrat : Int
  dtime : ℚ
  irow : Int
  n : Counts
  rx1 : Nat → ℚ
  rx2 : Nat → ℚ
  xsum1 : Nat → ℚ
  /-- Rows consumed by the Step 1 loop at this report time, latest first. -/
  grown : List Int

/-- The locals of the sweep. `out` is the list of output rows written so far
and `grown` the rows the Step 1 loop has consumed at the current report
time; neither influences the computation. -/
structure State where
  person : Int
  person2 : Int
  i2 : Int
  j2 : Int
  istrat : Int
  irow : Int
  n : Counts
  xsum1 : Nat → ℚ
  xsum2 : Nat → ℚ
  atrisk : Int → Int
  grown : List Int
  out : List OutRow

/-- The result list: `nstrat` and the output rows in the order written. -/
structure Result where
  nstrat : Nat
  rows : List OutRow

/-- The cell `n[k]`; cells outside `0 .. 11` read as 0. -/
def Counts.get (c : Counts) (k : Nat) : ℚ :=
  match k with
  | 0 => c.n0
  | 1 => c.n1
  | 2 => c.n2
  | 3 => c.n3
  | 4 => c.n4
  | 5 => c.n5
  | 6 => c.n6
  | 7 => c.n7
  | 8 => c.n8
  | 9 => c.n9
  | 10 => c.n10
  | 11 => c.n11
  | _ => 0

/-! ### Pass 1: count the strata (lines 89-97) -/

/-- Locals of pass 1. -/
structure Pass1 where
  istrat : Int
  nstrat : Nat
  i2 : Int

/-- Body of the loop of lines 91-97 for index `i`. -/
def pass1Step (inp : Input) (s : Pass1) (i : Nat) : Pass1 :=
  let i2 := inp.sort2 i
  if inp.strata i2 ≠ s.istrat then
    { istrat := inp.strata i2, nstrat := s.nstrat + 1, i2 := i2 }
  else
    { s with i2 := i2 }

/-- Lines 89-97: `for (i=1; i<nused; i++)`. -/
def pass1 (inp : Input) (u : Uninit) : Pass1 :=
  (List.range' 1 (inp.nused - 1)).foldl (pass1Step inp)
    { istrat := inp.strata (inp.sort2 0), nstrat := 1, i2 := u.i2 }

/-- The value of the local `i` during the sweep: its last assignment is the
loop of line 104, `for (i=0; i<nused; i++)`, which leaves `nused`. -/
def iAtSweep (inp : Input) : Int := inp.nused

/-! ### Step 1 and 2: grow the risk set (lines 148-180) -/

/-- Lines 152-157: add row `i2` to the risk set. -/
def addRisk (inp : Input) (s : State) : State :=
  let w := inp.wt s.i2
  let r := inp.risk s.i2
  { s with
    atrisk := Function.update s.atrisk s.i2 1
    n := { s.n with n0 := s.n.n0 + 1, n1 := s.n.n1 + w, n2 := s.n.n2 + w * r }
    xsum1 := fun k => if k < inp.nvar then s.xsum1 k + w * r * inp.xmat k s.i2 else s.xsum1 k }

/-- Lines 162-163: `n[8]++; n[9] += wt[j2];`. -/
def censor (inp : Input) (s : State) : State :=
  { s with n := { s.n with n8 := s.n.n8 + 1, n9 := s.n.n9 + inp.wt s.j2 } }

/-- Lines 171-172: `for (k=0; i<nvar; k++) xsum2[k] += ...`. The test is on
`i`, which the loop does not change. -/
def xsum2Loop (inp : Input) (i2 : Int) : Nat → Nat → (Nat → ℚ) → Option (Nat → ℚ)
  | 0, _, _ => none
  | fuel + 1, k, xsum2 =>
    if iAtSweep inp < inp.nvar then
      xsum2Loop inp i2 fuel (k + 1)
        (Function.update xsum2 k (xsum2 k + inp.wt i2 * inp.risk i2 * inp.xmat k i2))
    else some xsum2

/-- Lines 168-176: the body of `if (tstop[i2]==dtime && status[i2]>0)`. -/
def event (inp : Input) (fuel : Nat) (s : State) : Option State :=
  let w := inp.wt s.i2
  let r := inp.risk s.i2
  let n1 : Counts := { s.n with n3 := s.n.n3 + 1, n4 := s.n.n4 + w, n5 := s.n.n5 + w * r }
  (xsum2Loop inp s.i2 fuel 0 s.xsum2).map fun x2 =>
    { s with
      xsum2 := x2
      n := if inp.position s.i2 > 1 then { n1 with n6 := n1.n6 + 1, n7 := n1.n7 + w } else n1 }

/-- Lines 150-164: the first two `if` statements of the Step 1 loop body. -/
def growPre (inp : Input) (dtime : ℚ) (s : State) : State :=
  let s1 := if inp.tstart s.i2 ≤ dtime then addRisk inp s else s
  if inp.position s1.i2 > 1 then censor inp s1 else s1

/-- Line 166: the test `tstop[i2]==dtime && status[i2]>0` for row `i`. -/
def isEvent (inp : Input) (dtime : ℚ) (i : Int) : Prop :=
  inp.tstop i = dtime ∧ inp.status i > 0

instance (inp : Input) (dtime : ℚ) (i : Int) : Decidable (isEvent inp dtime i) := by
  unfold isEvent; infer_instance

/-- Lines 150-179: one trip through the body of the Step 1 loop. -/
def growBody (inp : Input) (fuel : Nat) (dtime : ℚ) (s : State) : Option State :=
  let s2 := growPre inp dtime s
  let s3 := if isEvent inp dtime s2.i2 then event inp fuel s2 else some s2
  s3.map fun t =>
    { t with
      person := t.person - 1
      i2 := inp.sort2 (t.person - 1)
      grown := t.i2 :: t.grown }

/-- Line 149: the test of the Step 1 loop. -/
def growCond (inp : Input) (dtime : ℚ) (s : State) : Prop :=
  inp.tstop s.i2 ≥ dtime ∧ s.person ≥ 0 ∧ inp.strata s.person = s.istrat

instance (inp : Input) (dtime : ℚ) (s : State) : Decidable (growCond inp dtime s) := by
  unfold growCond; infer_instance

/-- Lines 149-180: `while (...) { ... }`, the first argument bounds the trips. -/
def growLoop (inp : Input) (fuel : Nat) (dtime : ℚ) : Nat → State → Option State
  | 0, _ => none
  | c + 1, s =>
    if growCond inp dtime s then
      (growBody inp fuel dtime s).bind (growLoop inp fuel dtime c)
    else some s

/-! ### Step 3: shrink the risk set (lines 183-201) -/

/-- Lines 186-197: remove row `j2` from the risk set. -/
def removeRisk (inp : Input) (s : State) : State :=
  let m : Counts := { s.n with n0 := s.n.n0 - 1 }
  if m.n0 = 0 then
    { s with
      n := { m with n1 := 0, n2 := 0 }
      xsum1 := fun k => if k < inp.nvar then 0 else s.xsum1 k }
  else
    let w := inp.wt s.j2
    let r := inp.risk s.j2
    { s with
      n := { m with n1 := m.n1 - w, n2 := m.n2 - w * r }
      xsum1 := fun k => if k < inp.nvar then s.xsum1 k - inp.xmat k s.j2 * w * r else s.xsum1 k }

/-- Lines 185-200: one trip through the body of the Step 3 loop. -/
def shrinkBody (inp : Input) (s : State) : State :=
  let s1 := if s.atrisk s.j2 ≠ 0 then removeRisk inp s else s
  { s1 with
    person2 := s1.person2 - 1
    j2 := inp.sort2 (s1.person2 - 1) }

/-- Line 184: the test of the Step 3 loop. -/
def shrinkCond (inp : Input) (dtime : ℚ) (s : State) : Prop :=
  inp.tstart s.j2 ≥ dtime ∧ s.person2 ≥ 0 ∧ inp.strata s.person2 = s.istrat

instance (inp : Input) (dtime : ℚ) (s : State) : Decidable (shrinkCond inp dtime s) := by
  unfold shrinkCond; infer_instance

/-- Lines 184-201: `while (...) { ... }`. -/
def shrinkLoop (inp : Input) (dtime : ℚ) : Nat → State → Option State
  | 0, _ => none
  | c + 1, s =>
    if shrinkCond inp dtime s then shrinkLoop inp dtime c (shrinkBody inp s)
    else some s

/-! ### The Efron number at risk (lines 204-216) -/

/-- Lines 204-216. The loop `for (k=0; k<n[3]; k++)` does not change `n[3]`,
so it makes the trips `k = 0, .., ⌈n[3]⌉ - 1`. -/
def efron (n : Counts) : Counts :=
  if n.n3 ≤ 1 then
    { n with n10 := n.n2, n11 := n.n2 * n.n2 }
  else
    let meanwt := n.n5 / (n.n3 * n.n3)
    let m := (List.range ⌈n.n3⌉₊).foldl
      (fun (m : Counts) (k : Nat) =>
        { m with
          n10 := m.n10 + (m.n2 - k * meanwt)
          n11 := m.n11 + (m.n2 - k * meanwt) * (m.n2 - k * meanwt) })
      n
    { m with n10 := m.n10 / m.n3, n11 := m.n11 / m.n3 }

/-! ### Save the results (lines 219-225) -/

/-- Lines 220-225: the row written at `irow`, from the locals `s`. -/
def emitRow (inp : Input) (ii jj : Nat) (dtime : ℚ) (irow : Int) (s : State) : OutRow :=
  { ii := ii
    jj := jj
    istrat := s.istrat
    dtime := dtime
    irow := irow
    n := s.n
    rx1 := fun k => if k < inp.nvar then (if s.n.n0 = 0 then 0 else s.xsum1 k / s.n.n3) else 0
    rx2 := fun k => if k < inp.nvar then s.xsum2 k else 0
    xsum1 := s.xsum1
    grown := s.grown }

/-- Lines 219-225. -/
def emit (inp : Input) (ii jj : Nat) (dtime : ℚ) (s : State) : State :=
  { s with
    irow := s.irow - 1
    out := s.out ++ [emitRow inp ii jj dtime (s.irow - 1) s] }

/-- Lines 145 and 148: clear the per-time counts, `i2 = sort2[person]`. -/
def timeInit (inp : Input) (s : State) : State :=
  { s with
    n := { s.n with n3 := 0, n4 := 0, n5 := 0, n6 := 0, n7 := 0, n8 := 0, n9 := 0,
                    n10 := 0, n11 := 0 }
    grown := []
    i2 := inp.sort2 s.person }

/-- Lines 144-225: the body of the loop over the report times, for `jj`. -/
def timeStep (inp : Input) (fuel ii jj : Nat) (s : State) : Option State :=
  let dtime := inp.otime jj
  (growLoop inp fuel dtime fuel (timeInit inp s)).bind fun s1 =>
    (shrinkLoop inp dtime fuel { s1 with j2 := inp.sort1 s1.person2 }).map fun s2 =>
      emit inp ii jj dtime { s2 with n := efron s2.n }

/-- Lines 143-226: `for (jj=ntime-1; jj>=0; jj--)`; the argument is `jj+1`. -/
def timeLoop (inp : Input) (fuel ii : Nat) : Nat → State → Option State
  | 0, s => some s
  | j + 1, s => (timeStep inp fuel ii j s).bind (timeLoop inp fuel ii j)

/-! ### Walk past the remaining data (lines 229-236) -/

/-- Lines 230-231: `person--; i2 = sort2[person];`. -/
def walk1Step (inp : Input) (s : State) : State :=
  { s with person := s.person - 1, i2 := inp.sort2 (s.person - 1) }

/-- Lines 229-232. -/
def walk1 (inp : Input) : Nat → State → Option State
  | 0, _ => none
  | c + 1, s =>
    if s.person ≥ 0 ∧ inp.strata s.i2 = s.istrat then walk1 inp c (walk1Step inp s)
    else some s

/-- Lines 234-235: `person2--; j2 = sort1[person2];`. -/
def walk2Step (inp : Input) (s : State) : State :=
  { s with person2 := s.person2 - 1, j2 := inp.sort1 (s.person2 - 1) }

/-- Lines 233-236. -/
def walk2 (inp : Input) : Nat → State → Option State
  | 0, _ => none
  | c + 1, s =>
    if s.person2 ≥ 0 ∧ inp.strata s.j2 = s.istrat then walk2 inp c (walk2Step inp s)
    else some s

/-! ### The sweep over the strata (lines 135-237) -/

/-- Lines 139-141: `istrat = strata[sort2[person]]`, clear the running sums. -/
def stratInit (inp : Input) (s : State) : State :=
  { s with
    istrat := inp.strata (inp.sort2 s.person)
    n := { s.n with n0 := 0, n1 := 0, n2 := 0 }
    xsum1 := fun k => if k < inp.nvar then 0 else s.xsum1 k
    xsum2 := fun k => if k < inp.nvar then 0 else s.xsum2 k }

/-- Lines 139-236: the body of the loop over the strata, for `ii`. -/
def stratBody (inp : Input) (fuel ii : Nat) (s : State) : Option State :=
  (timeLoop inp fuel ii inp.ntime (stratInit inp s)).bind fun s1 =>
    (walk1 inp fuel s1).bind (walk2 inp fuel)

/-- Lines 138-237: `for (ii=0; ii<nstrat; ii++)`; the first argument is the
number of trips left. -/
def stratLoop (inp : Input) (fuel : Nat) : Nat → Nat → State → Option State
  | 0, _, s => some s
  | r + 1, ii, s => (stratBody inp fuel ii s).bind (stratLoop inp fuel r (ii + 1))

/-- The locals when the sweep starts (lines 104, 136-137). -/
def initState (inp : Input) (u : Uninit) (p : Pass1) : State :=
  { person := (inp.nused : Int) - 1
    person2 := (inp.nused : Int) - 1
    i2 := p.i2
    j2 := u.j2
    istrat := p.istrat
    irow := (inp.ntime : Int) * p.nstrat
    n := u.n
    xsum1 := u.xsum1
    xsum2 := u.xsum2
    atrisk := fun i => if 0 ≤ i ∧ i < inp.nused then 0 else u.atrisk i
    grown := []
    out := [] }

/-- The routine `coxsurv2`; `none` when some loop is still running after
`fuel` trips. -/
def coxsurv2 (inp : Input) (u : Uninit) (fuel : Nat) : Option Result :=
  let p := pass1 inp u
  (stratLoop inp fuel p.nstrat 0 (initState inp u p)).map fun s =>
    { nstrat := p.nstrat, rows := s.out }

/-! ### Building concrete inputs -/

/-- An array holding the list `l`, with `d` in every other cell. -/
def ofList {α : Type} (l : List α) (d : α) (i : Int) : α :=
  if 0 ≤ i then l.getD i.toNat d else d

/-- Locals that all start from zero. -/
def zeroUninit : Uninit :=
  { i2 := 0, j2 := 0, n := ⟨0, 0, 0, 0, 0, 0, 0, 0, 0, 0, 0, 0⟩, xsum1 := fun _ => 0, xsum2 := fun _ => 0,
    atrisk := fun _ => 0 }

/-- The row of the result written at `irow` by the last write to it. -/
def Result.rowAt (r : Result) (irow : Int) : Option OutRow :=
  (r.rows.reverse.find? fun x => x.irow = irow)

/-- The scenario of the specification: one stratum, rows `(0,5]` event,
`(0,5]` event, `(2,5]` censored, weights and risk scores 1, report time 5. -/
def scenario : Input :=
  { ntime := 1
    otime := ofList [5] 0
    nused := 3
    tstart := ofList [0, 0, 2] 0
    tstop := ofList [5, 5, 5] 0
    status := ofList [1, 1, 0] 0
    wt := ofList [1, 1, 1] 0
    sort1 := ofList [0, 1, 2] 0
    sort2 := ofList [0, 1, 2] 0
    strata := ofList [0, 0, 0] 0
    position := ofList [3, 3, 3] 0
    risk := ofList [1, 1, 1] 0
    nvar := 0
    xmat := fun _ _ => 0 }

/-! ### The input contract and the quantities the specification names -/

/-- Stratum of the row at position `p` of the stop-sorted order. -/
def lab2 (inp : Input) (p : Nat) : Int := inp.strata (inp.sort2 p)

/-- Stratum of the row at position `p` of the start-sorted order. -/
def lab1 (inp : Input) (p : Nat) : Int := inp.strata (inp.sort1 p)

/-- The cells `0 .. nused-1` of `f` hold a permutation of `0 .. nused-1`. -/
def IsIndexPerm (nused : Nat) (f : Int → Int) : Prop :=
  List.Perm ((List.range nused).map fun (p : Nat) => f p)
    ((List.range nused).map fun (p : Nat) => (p : Int))

/-- Equal labels are contiguous: the labelling is stratum-grouped. -/
def Grouped (nused : Nat) (lab : Nat → Int) : Prop :=
  ∀ r < nused, ∀ q < r, ∀ p < q, lab p = lab r → lab q = lab p

/-- The input contract: at least one row, strictly ascending report times,
`sort1` and `sort2` index permutations that are stratum-grouped with the same
strata at the same positions, and inside a stratum ascending by start time
and by stop time. -/
def InputContract (inp : Input) : Prop :=
  0 < inp.nused ∧
  (∀ j < inp.ntime - 1, inp.otime j < inp.otime (j + 1 : Nat)) ∧
  IsIndexPerm inp.nused inp.sort1 ∧
  IsIndexPerm inp.nused inp.sort2 ∧
  Grouped inp.nused (lab2 inp) ∧
  (∀ p < inp.nused, lab1 inp p = lab2 inp p) ∧
  (∀ q < inp.nused, ∀ p < q, lab2 inp p = lab2 inp q →
    inp.tstop (inp.sort2 p) ≤ inp.tstop (inp.sort2 q)) ∧
  (∀ q < inp.nused, ∀ p < q, lab1 inp p = lab1 inp q →
    inp.tstart (inp.sort1 p) ≤ inp.tstart (inp.sort1 q))

instance (nused : Nat) (f : Int → Int) : Decidable (IsIndexPerm nused f) := by
  unfold IsIndexPerm; infer_instance

instance (nused : Nat) (lab : Nat → Int) : Decidable (Grouped nused lab) := by
  unfold Grouped; infer_instance

instance (inp : Input) : Decidable (InputContract inp) := by
  unfold InputContract; infer_instance

/-- Number of rows of stratum `s` whose interval `(start, stop]` covers `t`. -/
def coverCount (inp : Input) (s : Int) (t : ℚ) : Nat :=
  ((List.range inp.nused).filter fun (i : Nat) =>
    inp.strata i = s ∧ inp.tstart i < t ∧ t ≤ inp.tstop i).length

/-- One stratum, rows `(0,1]`, `(5,8]`, `(1,9]`, none an event, report times
3, 8 and 20. -/
def shrinkInput : Input :=
  { ntime := 3
    otime := ofList [3, 8, 20] 0
    nused := 3
    tstart := ofList [0, 5, 1] 0
    tstop := ofList [1, 8, 9] 0
    status := ofList [0, 0, 0] 0
    wt := ofList [1, 1, 1] 0
    sort1 := ofList [0, 2, 1] 0
    sort2 := ofList [0, 1, 2] 0
    strata := ofList [0, 0, 0] 0
    position := ofList [3, 3, 3] 0
    risk := ofList [1, 1, 1] 0
    nvar := 0
    xmat := fun _ _ => 0 }

/-- The fields of a row that identify it, with the count `k` of its `n`. -/
def OutRow.key (r : OutRow) (k : Nat) : Int × ℚ × ℚ :=
  (r.istrat, r.dtime, r.n.get k)

/-! ### Definitions used to state the lemmas -/

/-- The part of the locals that the Step 3 loop never writes. -/
def sameOutside3 (s s' : State) : Prop :=
  s'.out = s.out ∧ s'.irow = s.irow ∧ s'.istrat = s.istrat ∧ s'.person = s.person ∧
  s'.i2 = s.i2 ∧ s'.grown = s.grown ∧ s'.n.n3 = s.n.n3 ∧ s'.n.n5 = s.n.n5 ∧
  s'.n.n10 = s.n.n10 ∧ s'.n.n11 = s.n.n11 ∧ s'.xsum2 = s.xsum2

/-- Number of the rows of `l` that line 166 counts as events at `t`. -/
def evCount (inp : Input) (t : ℚ) (l : List Int) : ℚ :=
  ((l.filter fun i => isEvent inp t i).length : ℚ)

/-- Sum of `wt * risk` over the rows of `l` that are events at `t`. -/
def evRisk (inp : Input) (t : ℚ) (l : List Int) : ℚ :=
  ((l.filter fun i => isEvent inp t i).map fun i => inp.wt i * inp.risk i).sum

/-- What the Step 1 loop maintains and leaves alone. -/
def growInv (inp : Input) (t : ℚ) (s s' : State) : Prop :=
  s'.out = s.out ∧ s'.irow = s.irow ∧ s'.istrat = s.istrat ∧ s'.person2 = s.person2 ∧
  s'.n.n10 = s.n.n10 ∧ s'.n.n11 = s.n.n11 ∧
  (∃ l, s'.grown = l ++ s.grown ∧ s'.n.n3 = s.n.n3 + evCount inp t l ∧
    s'.n.n5 = s.n.n5 + evRisk inp t l)

/-- What is known of an output row from the time step that wrote it: its
counts are `efron m` for counts `m` whose Efron cells are clear and whose
event cells tally the rows in `grown`. -/
def RowFacts (inp : Input) (r : OutRow) : Prop :=
  ∃ m : Counts, r.n = efron m ∧ m.n10 = 0 ∧ m.n11 = 0 ∧
    m.n3 = evCount inp r.dtime r.grown ∧ m.n5 = evRisk inp r.dtime r.grown

/-- What the rows `l` written by `j` trips of the time loop started with
`irow` look like. -/
def TimeRows (inp : Input) (ii : Nat) (istrat : Int) (irow : Int) (j : Nat)
    (l : List OutRow) : Prop :=
  (∀ r ∈ l, RowFacts inp r ∧ r.ii = ii ∧ r.istrat = istrat ∧ r.jj < j ∧
    r.dtime = inp.otime r.jj ∧ r.irow = irow - j + r.jj) ∧
  l.map (fun r => r.irow) = (List.range j).map (fun (q : Nat) => irow - 1 - (q : Int))

/-- What the rows `l` written by `r` trips of the stratum loop, the first of
them trip `ii` started with `irow`, look like. -/
def StratRows (inp : Input) (ii : Nat) (irow : Int) (r : Nat) (l : List OutRow) : Prop :=
  (∀ x ∈ l, RowFacts inp x ∧ ii ≤ x.ii ∧ x.ii < ii + r ∧ x.jj < inp.ntime ∧
    x.dtime = inp.otime x.jj ∧
    x.irow = irow - ((x.ii : Int) - ii + 1) * inp.ntime + x.jj) ∧
  l.map (fun x => x.irow) = (List.range (r * inp.ntime)).map (fun (q : Nat) => irow - 1 - (q : Int))

/-- One stratum, rows `(0,1]` censored, `(0,5]` event, `(0,5]` event and
`(2,5]` censored, weights and risk scores 1, one covariate with the values
0, 1, 2, 3 on the four rows, report times 5 and 20. -/
def tiedInput : Input :=
  { ntime := 2
    otime := ofList [5, 20] 0
    nused := 4
    tstart := ofList [0, 0, 0, 2] 0
    tstop := ofList [1, 5, 5, 5] 0
    status := ofList [0, 1, 1, 0] 0
    wt := ofList [1, 1, 1, 1] 0
    sort1 := ofList [0, 1, 2, 3] 0
    sort2 := ofList [0, 1, 2, 3] 0
    strata := ofList [0, 0, 0, 0] 0
    position := ofList [3, 3, 3, 3] 0
    risk := ofList [1, 1, 1, 1] 0
    nvar := 1
    xmat := fun _ => ofList [0, 1, 2, 3] 0 }

/-- Sum of `wt * risk * x_k` over the rows of stratum `s` that have an event
with exit time `t`. -/
def eventCovSum (inp : Input) (s : Int) (t : ℚ) (k : Nat) : ℚ :=
  (((List.range inp.nused).filter fun (i : Nat) =>
      inp.strata i = s ∧ inp.tstop i = t ∧ inp.status i > 0).map fun (i : Nat) =>
    inp.wt i * inp.risk i * inp.xmat k i).sum

/-- One stratum, rows `(0,1]` censored, `(0,5]` event, `(2,5]` censored,
weights and risk scores 1, report times 5 and 20. -/
def untiedInput : Input :=
  { scenario with
    ntime := 2
    otime := ofList [5, 20] 0
    tstart := ofList [0, 0, 2] 0
    tstop := ofList [1, 5, 5] 0
    status := ofList [0, 1, 0] 0 }

/-- The table of `inp` with its rows moved: row `i` goes to place `fwd i`, the
row at place `j` comes from `bwd j`, and `sort1`, `sort2` are re-indexed. -/
def permuteRows (inp : Input) (fwd bwd : Int → Int) : Input :=
  { inp with
    tstart := fun j => inp.tstart (bwd j)
    tstop := fun j => inp.tstop (bwd j)
    status := fun j => inp.status (bwd j)
    wt := fun j => inp.wt (bwd j)
    risk := fun j => inp.risk (bwd j)
    strata := fun j => inp.strata (bwd j)
    position := fun j => inp.position (bwd j)
    xmat := fun k j => inp.xmat k (bwd j)
    sort1 := fun p => fwd (inp.sort1 p)
    sort2 := fun p => fwd (inp.sort2 p) }

/-- Two strata: stratum 0 has the rows `(0,1]` and `(0,5]`, stratum 1 the row
`(0,5]`; no events, weights and risk scores 1, report times 5 and 20. -/
def twoStrata : Input :=
  { ntime := 2
    otime := ofList [5, 20] 0
    nused := 3
    tstart := ofList [0, 0, 0] 0
    tstop := ofList [1, 5, 5] 0
    status := ofList [0, 0, 0] 0
    wt := ofList [1, 1, 1] 0
    sort1 := ofList [0, 1, 2] 0
    sort2 := ofList [0, 1, 2] 0
    strata := ofList [0, 0, 1] 0
    position := ofList [3, 3, 3] 0
    risk := ofList [1, 1, 1] 0
    nvar := 0
    xmat := fun _ _ => 0 }

/-- The table of `twoStrata` with the row of stratum 1 moved in front of the
rows of stratum 0. -/
def twoStrataSwapped : Input :=
  permuteRows twoStrata (ofList [1, 2, 0] 0) (ofList [2, 0, 1] 0)

/-- Number of places `i` in `1 .. k` whose label differs from the label of
place `i - 1`: the index of the block of equal labels that holds place `k`. -/
def chg (lab : Nat → Int) : Nat → Nat
  | 0 => 0
  | k + 1 => chg lab k + (if lab (k + 1) ≠ lab k then 1 else 0)

/-- Number of distinct stratum labels among the rows `0 .. nused-1`. -/
def distinctLabels (inp : Input) : Nat :=
  ((List.range inp.nused).map fun (i : Nat) => inp.strata i).dedup.length

/-- At the start of a trip of the stratum loop the cursor is on the last
place `b-1` of a block of equal labels. -/
def PassStart (inp : Input) (s : State) (b : Nat) : Prop :=
  s.person = (b : Int) - 1 ∧ 1 ≤ b ∧ b ≤ inp.nused ∧
  (b = inp.nused ∨ lab2 inp b ≠ lab2 inp (b - 1))

/-- Number of places of the stop-sorted order whose row has label `A` and is
an event with exit time `t`. -/
def cntEv (inp : Input) (A : Int) (t : ℚ) : Nat :=
  ((Finset.range inp.nused).filter fun (q : Nat) =>
    lab2 inp q = A ∧ isEvent inp t (inp.sort2 q)).card

/-- Whether row `i` is an event whose exit time is one of the report times. -/
def atReportTime (inp : Input) (i : Int) : Prop :=
  inp.status i > 0 ∧ ∃ j < inp.ntime, inp.tstop i = inp.otime (j : Nat)

instance (inp : Input) (i : Int) : Decidable (atReportTime inp i) := by
  unfold atReportTime; infer_instance

/-- Number of rows of stratum `A` that are events with an exit time equal to
one of the report times. -/
def eventRowCount (inp : Input) (A : Int) : Nat :=
  ((List.range inp.nused).filter fun (i : Nat) =>
    inp.strata i = A ∧ atReportTime inp i).length

/-- Number of rows of stratum `A` that are events with an exit time between
the earliest and the latest report time, inclusive. -/
def eventsInRange (inp : Input) (A : Int) : Nat :=
  ((List.range inp.nused).filter fun (i : Nat) =>
    inp.strata i = A ∧ inp.status i > 0 ∧ inp.otime 0 ≤ inp.tstop i ∧
      inp.tstop i ≤ inp.otime ((inp.ntime - 1 : Nat) : Int)).length

/-- Sum of field 3 over the output rows written for stratum `A`. -/
def stratumEventSum (res : Result) (A : Int) : ℚ :=
  ((res.rows.filter fun r => r.istrat = A).map fun r => r.n.n3).sum

/-- One stratum, rows `(0,1]` censored and `(0,3]` event, report times 2 and 5. -/
def gapInput : Input :=
  { ntime := 2
    otime := ofList [2, 5] 0
    nused := 2
    tstart := ofList [0, 0] 0
    tstop := ofList [1, 3] 0
    status := ofList [0, 1] 0
    wt := ofList [1, 1] 0
    sort1 := ofList [0, 1] 0
    sort2 := ofList [0, 1] 0
    strata := ofList [0, 0] 0
    position := ofList [3, 3] 0
    risk := ofList [1, 1] 0
    nvar := 0
    xmat := fun _ _ => 0 }

/-- One stratum, rows `(0,1]` censored, `(0,2]` event, `(0,3]` event and
`(0,5]` event, report times 2, 5 and 20. -/
def eventsInput : Input :=
  { ntime := 3
    otime := ofList [2, 5, 20] 0
    nused := 4
    tstart := ofList [0, 0, 0, 0] 0
    tstop := ofList [1, 2, 3, 5] 0
    status := ofList [0, 1, 1, 1] 0
    wt := ofList [1, 1, 1, 1] 0
    sort1 := ofList [0, 1, 2, 3] 0
    sort2 := ofList [0, 1, 2, 3] 0
    strata := ofList [0, 0, 0, 0] 0
    position := ofList [3, 3, 3, 3] 0
    risk := ofList [1, 1, 1, 1] 0
    nvar := 0
    xmat := fun _ _ => 0 }

/-- The table of `twoStrataSwapped` with the two `(0,5]` rows made events:
the stratum-1 row `(0,5]` event in front of the stratum-0 rows `(0,1]`
censored and `(0,5]` event. -/
def swappedEvents : Input :=
  { twoStrataSwapped with status := ofList [1, 0, 1] 0 }

/-- One stratum, rows `(0,1]` censored with weight 1, `(0,5]` event with
weight 2 and `(0,6]` censored with weight 5, risk scores 1, position 3,
report times 5 and 20. -/
def weightedInput : Input :=
  { ntime := 2
    otime := ofList [5, 20] 0
    nused := 3
    tstart := ofList [0, 0, 0] 0
    tstop := ofList [1, 5, 6] 0
    status := ofList [0, 1, 0] 0
    wt := ofList [1, 2, 5] 0
    sort1 := ofList [0, 1, 2] 0
    sort2 := ofList [0, 1, 2] 0
    strata := ofList [0, 0, 0] 0
    position := ofList [3, 3, 3] 0
    risk := ofList [1, 1, 1] 0
    nvar := 0
    xmat := fun _ _ => 0 }

/-- The table of `weightedInput` with the single report time 5. -/
def uninitInput : Input :=
  { weightedInput with ntime := 1, otime := ofList [5] 0 }

/-- One stratum, rows `(3,8]`, `(6,7]`, `(4,5]`, `(1,2]` and `(0,1]` with
weights 1, 2, 3, 4, 5, none an event, risk scores 1, report times 2, 3, 6
and 20. -/
def negInput : Input :=
  { ntime := 4
    otime := ofList [2, 3, 6, 20] 0
    nused := 5
    tstart := ofList [3, 6, 4, 1, 0] 0
    tstop := ofList [8, 7, 5, 2, 1] 0
    status := ofList [0, 0, 0, 0, 0] 0
    wt := ofList [1, 2, 3, 4, 5] 0
    sort1 := ofList [4, 3, 0, 2, 1] 0
    sort2 := ofList [4, 3, 2, 1, 0] 0
    strata := ofList [0, 0, 0, 0, 0] 0
    position := ofList [3, 3, 3, 3, 3] 0
    risk := ofList [1, 1, 1, 1, 1] 0
    nvar := 0
    xmat := fun _ _ => 0 }

/-- The table of `shrinkInput` with one covariate that is 1 on every row. -/
def noEventInput : Input :=
  { shrinkInput with nvar := 1, xmat := fun _ => ofList [1, 1, 1] 0 }

/-- One stratum with the single row `(0,5]`, an event, two covariates, report
time 5. -/
def loopInput : Input :=
  { ntime := 1
    otime := ofList [5] 0
    nused := 1
    tstart := ofList [0] 0
    tstop := ofList [5] 0
    status := ofList [1] 0
    wt := ofList [1] 0
    sort1 := ofList [0] 0
    sort2 := ofList [0] 0
    strata := ofList [0] 0
    position := ofList [3] 0
    risk := ofList [1] 0
    nvar := 2
    xmat := fun _ _ => 1 }

/-- One stratum, rows `(0,1]` censored with flag 3 and weight 1, `(0,5]` event
with flag 3 and weight 2, `(0,5]` censored with flag 1 and weight 3 and
`(0,6]` censored with flag 0 and weight 5, risk scores 1, report times 5 and
20. -/
def flagInput : Input :=
  { ntime := 2
    otime := ofList [5, 20] 0
    nused := 4
    tstart := ofList [0, 0, 0, 0] 0
    tstop := ofList [1, 5, 5, 6] 0
    status := ofList [0, 1, 0, 0] 0
    wt := ofList [1, 2, 3, 5] 0
    sort1 := ofList [0, 1, 2, 3] 0
    sort2 := ofList [0, 1, 2, 3] 0
    strata := ofList [0, 0, 0, 0] 0
    position := ofList [3, 3, 1, 0] 0
    risk := ofList [1, 1, 1, 1] 0
    nvar := 0
    xmat := fun _ _ => 0 }

/-- Sum of the weights of the rows of stratum `s` whose interval
`(start, stop]` covers `t`. -/
def coverWeight (inp : Input) (s : Int) (t : ℚ) : ℚ :=
  (((List.range inp.nused).filter fun (i : Nat) =>
      inp.strata i = s ∧ inp.tstart i < t ∧ t ≤ inp.tstop i).map fun (i : Nat) =>
    inp.wt i).sum

/-- Sum of `wt * risk` over the rows of stratum `s` whose interval
`(start, stop]` covers `t`. -/
def coverRisk (inp : Input) (s : Int) (t : ℚ) : ℚ :=
  (((List.range inp.nused).filter fun (i : Nat) =>
      inp.strata i = s ∧ inp.tstart i < t ∧ t ≤ inp.tstop i).map fun (i : Nat) =>
    inp.wt i * inp.risk i).sum

/-- Number of the rows of `l` that pass the test `position[i2]>1` of lines 160
and 173. -/
def flagCount (inp : Input) (l : List Int) : ℚ :=
  ((l.filter fun i => inp.position i > 1).length : ℚ)

/-- Sum of the weights of the rows of `l` that pass the test `position[i2]>1`. -/
def flagWeight (inp : Input) (l : List Int) : ℚ :=
  ((l.filter fun i => inp.position i > 1).map inp.wt).sum

/-- Number of the rows of `l` whose chain-position flag is 0 or 1. -/
def midCount (inp : Input) (l : List Int) : ℚ :=
  ((l.filter fun i => inp.position i = 0 ∨ inp.position i = 1).length : ℚ)

/-- Sum of the weights of the rows of `l` whose chain-position flag is 0 or 1. -/
def midWeight (inp : Input) (l : List Int) : ℚ :=
  ((l.filter fun i => inp.position i = 0 ∨ inp.position i = 1).map inp.wt).sum

/-- Number of the rows of `l` that are events at `t` and pass the test
`position[i2]>1` of line 173. -/
def finalCount (inp : Input) (t : ℚ) (l : List Int) : ℚ :=
  ((l.filter fun i => isEvent inp t i ∧ inp.position i > 1).length : ℚ)

/-- Sum of the weights of the rows of `l` that are events at `t` and pass the
test `position[i2]>1` of line 173. -/
def finalWeight (inp : Input) (t : ℚ) (l : List Int) : ℚ :=
  ((l.filter fun i => isEvent inp t i ∧ inp.position i > 1).map inp.wt).sum

/-- The rows of stratum `A` with exit time `t`, event status and a
chain-position flag above 1 (flag 2 or 3). -/
def finalExitRows (inp : Input) (A : Int) (t : ℚ) : List Nat :=
  (List.range inp.nused).filter fun (i : Nat) =>
    inp.strata i = A ∧ isEvent inp t i ∧ inp.position i > 1

/-- Number of the rows of stratum `A` with exit time `t`, event status and
flag 2 or 3. -/
def finalExitCount (inp : Input) (A : Int) (t : ℚ) : ℚ :=
  ((finalExitRows inp A t).length : ℚ)

/-- Sum of the weights of the rows of stratum `A` with exit time `t`, event
status and flag 2 or 3. -/
def finalExitWeight (inp : Input) (A : Int) (t : ℚ) : ℚ :=
  ((finalExitRows inp A t).map fun (i : Nat) => inp.wt i).sum

/-- The rows at the places of the stop-sorted order whose label is `A` and
whose row is an event with exit time `t`, in the order of the places. -/
def blockEvents (inp : Input) (A : Int) (t : ℚ) : List Int :=
  ((List.range inp.nused).filter fun (q : Nat) =>
    lab2 inp q = A ∧ isEvent inp t (inp.sort2 q)).map fun (q : Nat) => inp.sort2 q

/-- What the time step that wrote an output row leaves in its cells 6, 7
and 8: tallies over the rows in `grown`. -/
def RowTally (inp : Input) (r : OutRow) : Prop :=
  r.n.n6 = finalCount inp r.dtime r.grown ∧ r.n.n7 = finalWeight inp r.dtime r.grown ∧
  r.n.n8 = flagCount inp r.grown

/-- The indices at which the loop of lines 229-232 reads `sort2` (line 231),
in the order of the reads. -/
def walk1Reads (inp : Input) : Nat → State → List Int
  | 0, _ => []
  | c + 1, s =>
    if s.person ≥ 0 ∧ inp.strata s.i2 = s.istrat then
      (s.person - 1) :: walk1Reads inp c (walk1Step inp s)
    else []

/-- The indices at which the loop of lines 233-236 reads `sort1` (line 235),
in the order of the reads. -/
def walk2Reads (inp : Input) : Nat → State → List Int
  | 0, _ => []
  | c + 1, s =>
    if s.person2 ≥ 0 ∧ inp.strata s.j2 = s.istrat then
      (s.person2 - 1) :: walk2Reads inp c (walk2Step inp s)
    else []

/-- The indices at which the walk-past loops of the first trip of the stratum
loop read `sort2` and `sort1`. -/
def walkReads (inp : Input) (u : Uninit) (fuel : Nat) : Option (List Int × List Int) :=
  (timeLoop inp fuel 0 inp.ntime (stratInit inp (initState inp u (pass1 inp u)))).bind fun s1 =>
    (walk1 inp fuel s1).map fun s2 => (walk1Reads inp fuel s1, walk2Reads inp fuel s2)

/-- The denominator of the quotient of line 223 for an output row, `none`
when line 222 writes 0 instead. -/
def xbarDenominator (r : OutRow) : Option ℚ :=
  if r.n.n0 = 0 then none else some r.n.n3

/-- The indices at which the Step 1 loop reads `sort2` when it steps its
cursor (line 179), in the order of the reads. -/
def growReads (inp : Input) (fuel : Nat) (dtime : ℚ) : Nat → State → List Int
  | 0, _ => []
  | c + 1, s =>
    if growCond inp dtime s then
      match growBody inp fuel dtime s with
      | none => []
      | some s1 => s1.person :: growReads inp fuel dtime c s1
    else []

/-! ## Theorems -/

/-! ### What one trip of each loop leaves unchanged -/

theorem growPre_frame (inp : Input) (t : ℚ) (s : State) :
    (growPre inp t s).out = s.out ∧ (growPre inp t s).irow = s.irow ∧
    (growPre inp t s).istrat = s.istrat ∧ (growPre inp t s).person = s.person ∧
    (growPre inp t s).i2 = s.i2 ∧ (growPre inp t s).person2 = s.person2 ∧
    (growPre inp t s).grown = s.grown ∧ (growPre inp t s).n.n3 = s.n.n3 ∧
    (growPre inp t s).n.n5 = s.n.n5 ∧ (growPre inp t s).n.n10 = s.n.n10 ∧
    (growPre inp t s).n.n11 = s.n.n11 := by
  unfold growPre
  by_cases h1 : inp.tstart s.i2 ≤ t <;> by_cases h2 : inp.position s.i2 > 1 <;>
    simp [h1, h2, addRisk, censor]

theorem event_frame {inp : Input} {F : Nat} {s s' : State} (h : event inp F s = some s') :
    s'.out = s.out ∧ s'.irow = s.irow ∧ s'.istrat = s.istrat ∧ s'.person = s.person ∧
    s'.i2 = s.i2 ∧ s'.person2 = s.person2 ∧ s'.grown = s.grown ∧
    s'.n.n3 = s.n.n3 + 1 ∧ s'.n.n5 = s.n.n5 + inp.wt s.i2 * inp.risk s.i2 ∧
    s'.n.n10 = s.n.n10 ∧ s'.n.n11 = s.n.n11 := by
  unfold event at h
  simp only [Option.map_eq_some'] at h
  obtain ⟨x, _, rfl⟩ := h
  by_cases h2 : inp.position s.i2 > 1 <;> simp [h2]

theorem growBody_spec {inp : Input} {F : Nat} {t : ℚ} {s s' : State}
    (h : growBody inp F t s = some s') :
    s'.out = s.out ∧ s'.irow = s.irow ∧ s'.istrat = s.istrat ∧
    s'.person = s.person - 1 ∧ s'.i2 = inp.sort2 (s.person - 1) ∧
    s'.person2 = s.person2 ∧ s'.grown = s.i2 :: s.grown ∧
    s'.n.n3 = s.n.n3 + (if isEvent inp t s.i2 then 1 else 0) ∧
    s'.n.n5 = s.n.n5 + (if isEvent inp t s.i2 then inp.wt s.i2 * inp.risk s.i2 else 0) ∧
    s'.n.n10 = s.n.n10 ∧ s'.n.n11 = s.n.n11 := by
  unfold growBody at h
  simp only [Option.map_eq_some'] at h
  obtain ⟨a, ha, rfl⟩ := h
  obtain ⟨p1, p2, p3, p4, p5, p6, p7, p8, p9, p10, p11⟩ := growPre_frame inp t s
  rw [p5] at ha
  by_cases h3 : isEvent inp t s.i2
  · rw [if_pos h3] at ha
    obtain ⟨q1, q2, q3, q4, q5, q6, q7, q8, q9, q10, q11⟩ := event_frame ha
    simp only [if_pos h3]
    rw [p5] at q5 q9
    refine ⟨by rw [q1, p1], by rw [q2, p2], by rw [q3, p3], by rw [q4, p4], by rw [q4, p4],
      by rw [q6, p6], by rw [q5, q7, p7], by rw [q8, p8], by rw [q9, p9], by rw [q10, p10],
      by rw [q11, p11]⟩
  · rw [if_neg h3] at ha
    simp only [Option.some.injEq] at ha
    subst ha
    simp only [if_neg h3, add_zero]
    exact ⟨p1, p2, p3, by rw [p4], by rw [p4], p6, by rw [p5, p7], p8, p9, p10, p11⟩

theorem shrinkBody_frame (inp : Input) (s : State) :
    (shrinkBody inp s).out = s.out ∧ (shrinkBody inp s).irow = s.irow ∧
    (shrinkBody inp s).istrat = s.istrat ∧ (shrinkBody inp s).person = s.person ∧
    (shrinkBody inp s).i2 = s.i2 ∧ (shrinkBody inp s).person2 = s.person2 - 1 ∧
    (shrinkBody inp s).grown = s.grown ∧ (shrinkBody inp s).n.n3 = s.n.n3 ∧
    (shrinkBody inp s).n.n5 = s.n.n5 ∧ (shrinkBody inp s).n.n10 = s.n.n10 ∧
    (shrinkBody inp s).n.n11 = s.n.n11 ∧ (shrinkBody inp s).xsum2 = s.xsum2 := by
  unfold shrinkBody removeRisk
  by_cases h1 : s.atrisk s.j2 ≠ 0 <;> by_cases h2 : s.n.n0 - 1 = 0 <;> simp [h1, h2]

theorem shrinkLoop_frame {inp : Input} {t : ℚ} (c : Nat) :
    ∀ {s s' : State}, shrinkLoop inp t c s = some s' → sameOutside3 s s' := by
  induction c with
  | zero => intro s s' h; simp [shrinkLoop] at h
  | succ c ih =>
    intro s s' h
    unfold shrinkLoop at h
    by_cases hc : shrinkCond inp t s
    · rw [if_pos hc] at h
      obtain ⟨a1, a2, a3, a4, a5, a6, a7, a8, a9, a10, a11⟩ := ih h
      obtain ⟨b1, b2, b3, b4, b5, _, b7, b8, b9, b10, b11, b12⟩ := shrinkBody_frame inp s
      exact ⟨a1.trans b1, a2.trans b2, a3.trans b3, a4.trans b4, a5.trans b5, a6.trans b7,
        a7.trans b8, a8.trans b9, a9.trans b10, a10.trans b11, a11.trans b12⟩
    · rw [if_neg hc] at h
      simp only [Option.some.injEq] at h
      subst h
      exact ⟨rfl, rfl, rfl, rfl, rfl, rfl, rfl, rfl, rfl, rfl, rfl⟩

theorem growLoop_inv {inp : Input} {F : Nat} {t : ℚ} (c : Nat) :
    ∀ {s s' : State}, growLoop inp F t c s = some s' → growInv inp t s s' := by
  induction c with
  | zero => intro s s' h; simp [growLoop] at h
  | succ c ih =>
    intro s s' h
    unfold growLoop at h
    by_cases hc : growCond inp t s
    · rw [if_pos hc] at h
      simp only [Option.bind_eq_some] at h
      obtain ⟨a, ha, h⟩ := h
      obtain ⟨a1, a2, a3, a4, a5, a6, l, a7, a8, a9⟩ := ih h
      obtain ⟨b1, b2, b3, _, _, b6, b7, b8, b9, b10, b11⟩ := growBody_spec ha
      refine ⟨a1.trans b1, a2.trans b2, a3.trans b3, a4.trans b6, a5.trans b10, a6.trans b11,
        l ++ [s.i2], ?_, ?_, ?_⟩
      · rw [a7, b7]; simp
      · rw [a8, b8]
        by_cases he : isEvent inp t s.i2 <;> simp [evCount, List.filter_append, he, add_assoc, add_comm]
      · rw [a9, b9]
        by_cases he : isEvent inp t s.i2 <;> simp [evRisk, List.filter_append, he, add_assoc, add_comm]
    · rw [if_neg hc] at h
      simp only [Option.some.injEq] at h
      subst h
      exact ⟨rfl, rfl, rfl, rfl, rfl, rfl, [], by simp, by simp [evCount], by simp [evRisk]⟩

/-! ### Every output row comes from one trip of the time loop -/

theorem timeStep_row {inp : Input} {F ii jj : Nat} {s s' : State}
    (h : timeStep inp F ii jj s = some s') :
    ∃ r, s'.out = s.out ++ [r] ∧ RowFacts inp r ∧ r.ii = ii ∧ r.jj = jj ∧
      r.dtime = inp.otime jj ∧ r.irow = s.irow - 1 ∧ r.istrat = s.istrat ∧
      s'.irow = s.irow - 1 ∧ s'.istrat = s.istrat := by
  unfold timeStep at h
  simp only [Option.bind_eq_some, Option.map_eq_some'] at h
  obtain ⟨s1, h1, s2, h2, rfl⟩ := h
  obtain ⟨a1, a2, a3, _, a5, a6, l, a7, a8, a9⟩ := growLoop_inv F h1
  obtain ⟨b1, b2, b3, _, _, b6, b7, b8, b9, b10, _⟩ := shrinkLoop_frame F h2
  simp only [timeInit] at a1 a2 a3 a5 a6 a7 a8 a9
  simp only at b1 b2 b3 b6 b7 b8 b9 b10
  refine ⟨emitRow inp ii jj (inp.otime jj) (s2.irow - 1) { s2 with n := efron s2.n },
    ?_, ⟨s2.n, rfl, ?_, ?_, ?_, ?_⟩, rfl, rfl, rfl, ?_, ?_, ?_, ?_⟩
  · simp [emit, b1, a1]
  · rw [b9, a5]
  · rw [b10, a6]
  · simp [emitRow, b7, b6, a8, a7]
  · simp [emitRow, b8, b6, a9, a7]
  · simp [emitRow, b2, a2]
  · simp [emitRow, b3, a3]
  · simp [emit, b2, a2]
  · simp [emit, b3, a3]

theorem timeLoop_rows {inp : Input} {F ii : Nat} (j : Nat) :
    ∀ {s s' : State}, timeLoop inp F ii j s = some s' →
      ∃ l, s'.out = s.out ++ l ∧ TimeRows inp ii s.istrat s.irow j l ∧
        s'.irow = s.irow - j ∧ s'.istrat = s.istrat := by
  induction j with
  | zero =>
    intro s s' h
    simp only [timeLoop, Option.some.injEq] at h
    subst h
    exact ⟨[], by simp, ⟨by simp, by simp⟩, by simp, rfl⟩
  | succ j ih =>
    intro s s' h
    simp only [timeLoop, Option.bind_eq_some] at h
    obtain ⟨s1, h1, h2⟩ := h
    obtain ⟨r, c1, c2, c3, c4, c5, c6, c7, c8, c9⟩ := timeStep_row h1
    obtain ⟨l, d1, ⟨d2, d3⟩, d4, d5⟩ := ih h2
    refine ⟨r :: l, by rw [d1, c1]; simp, ⟨?_, ?_⟩, ?_, by rw [d5, c9]⟩
    · intro x hx
      rcases List.mem_cons.mp hx with rfl | hx
      · refine ⟨c2, c3, c7, by omega, by rw [c5, c4], ?_⟩
        rw [c6, c4]; push_cast; ring
      · obtain ⟨e1, e2, e3, e4, e5, e6⟩ := d2 x hx
        refine ⟨e1, e2, by rw [e3, c9], by omega, e5, ?_⟩
        rw [e6, c8]; push_cast; ring
    · rw [List.range_succ_eq_map, List.map_cons, List.map_cons, d3, c6, c8, List.map_map]
      congr 1
      · simp
      · apply List.map_congr_left
        intro q _
        simp only [Function.comp_apply]
        push_cast; ring
    · rw [d4, c8]; push_cast; ring

theorem walk1_frame {inp : Input} (c : Nat) :
    ∀ {s s' : State}, walk1 inp c s = some s' →
      s'.out = s.out ∧ s'.irow = s.irow ∧ s'.istrat = s.istrat := by
  induction c with
  | zero => intro s s' h; simp [walk1] at h
  | succ c ih =>
    intro s s' h
    unfold walk1 at h
    split_ifs at h with hc
    · simpa [walk1Step, walk2Step] using ih h
    · simp only [Option.some.injEq] at h
      subst h
      exact ⟨rfl, rfl, rfl⟩

theorem walk2_frame {inp : Input} (c : Nat) :
    ∀ {s s' : State}, walk2 inp c s = some s' →
      s'.out = s.out ∧ s'.irow = s.irow ∧ s'.istrat = s.istrat ∧ s'.person = s.person ∧
        s'.i2 = s.i2 := by
  induction c with
  | zero => intro s s' h; simp [walk2] at h
  | succ c ih =>
    intro s s' h
    unfold walk2 at h
    split_ifs at h with hc
    · simpa [walk1Step, walk2Step] using ih h
    · simp only [Option.some.injEq] at h
      subst h
      exact ⟨rfl, rfl, rfl, rfl, rfl⟩

theorem stratBody_rows {inp : Input} {F ii : Nat} {s s' : State}
    (h : stratBody inp F ii s = some s') :
    ∃ l, s'.out = s.out ++ l ∧
      TimeRows inp ii (inp.strata (inp.sort2 s.person)) s.irow inp.ntime l ∧
      s'.irow = s.irow - inp.ntime := by
  unfold stratBody at h
  simp only [Option.bind_eq_some] at h
  obtain ⟨s1, h1, s2, h2, h3⟩ := h
  obtain ⟨l, a1, a2, a3, _⟩ := timeLoop_rows inp.ntime h1
  obtain ⟨b1, b2, _⟩ := walk1_frame F h2
  obtain ⟨c1, c2, _⟩ := walk2_frame F h3
  exact ⟨l, by rw [c1, b1, a1]; rfl, a2, by rw [c2, b2, a3]; rfl⟩

theorem stratLoop_rows {inp : Input} {F : Nat} (r : Nat) :
    ∀ {ii : Nat} {s s' : State}, stratLoop inp F r ii s = some s' →
      ∃ l, s'.out = s.out ++ l ∧ StratRows inp ii s.irow r l := by
  induction r with
  | zero =>
    intro ii s s' h
    simp only [stratLoop, Option.some.injEq] at h
    subst h
    exact ⟨[], by simp, by simp, by simp⟩
  | succ r ih =>
    intro ii s s' h
    simp only [stratLoop, Option.bind_eq_some] at h
    obtain ⟨s1, h1, h2⟩ := h
    obtain ⟨l0, a1, ⟨a2, a3⟩, a4⟩ := stratBody_rows h1
    obtain ⟨l, b1, b2, b3⟩ := ih h2
    refine ⟨l0 ++ l, by rw [b1, a1]; simp, ?_, ?_⟩
    · intro x hx
      rcases List.mem_append.mp hx with hx | hx
      · obtain ⟨e1, e2, _, e4, e5, e6⟩ := a2 x hx
        refine ⟨e1, by omega, by omega, e4, e5, ?_⟩
        rw [e6, e2]; ring
      · obtain ⟨e1, e2, e3, e4, e5, e6⟩ := b2 x hx
        refine ⟨e1, by omega, by omega, e4, e5, ?_⟩
        rw [e6, a4]; push_cast; ring
    · rw [List.map_append, a3, b3, a4, Nat.succ_mul, Nat.add_comm (r * inp.ntime),
        List.range_add, List.map_append, List.map_map]
      congr 1
      apply List.map_congr_left
      intro q _
      simp only [Function.comp_apply]
      push_cast; ring

theorem coxsurv2_rows {inp : Input} {u : Uninit} {F : Nat} {res : Result}
    (h : coxsurv2 inp u F = some res) :
    res.nstrat = (pass1 inp u).nstrat ∧
    StratRows inp 0 ((inp.ntime : Int) * res.nstrat) res.nstrat res.rows := by
  unfold coxsurv2 at h
  simp only [Option.map_eq_some'] at h
  obtain ⟨s, hs, rfl⟩ := h
  obtain ⟨l, a1, a2⟩ := stratLoop_rows _ hs
  simp only [initState, List.nil_append] at a1 a2
  exact ⟨rfl, by rw [a1]; exact a2⟩

/-! ### The Efron step -/

theorem efron_fold (n : Counts) (mw : ℚ) (d : Nat) :
    (List.range d).foldl
      (fun (m : Counts) (k : Nat) =>
        { m with
          n10 := m.n10 + (m.n2 - k * mw)
          n11 := m.n11 + (m.n2 - k * mw) * (m.n2 - k * mw) })
      n =
    { n with
      n10 := n.n10 + ∑ k in Finset.range d, (n.n2 - k * mw)
      n11 := n.n11 + ∑ k in Finset.range d, (n.n2 - k * mw) * (n.n2 - k * mw) } := by
  induction d with
  | zero => simp
  | succ d ih =>
    rw [List.range_succ, List.foldl_append, ih]
    simp only [List.foldl_cons, List.foldl_nil, Finset.sum_range_succ]
    congr 1 <;> ring

theorem efron_keeps (n : Counts) :
    (efron n).n0 = n.n0 ∧ (efron n).n2 = n.n2 ∧ (efron n).n3 = n.n3 ∧ (efron n).n5 = n.n5 := by
  unfold efron
  by_cases h : n.n3 ≤ 1
  · simp [h]
  · simp [if_neg h, efron_fold]

theorem efron_untied (n : Counts) (h : n.n3 ≤ 1) :
    (efron n).n10 = n.n2 ∧ (efron n).n11 = n.n2 * n.n2 := by
  unfold efron
  simp [h]

theorem efron_tied (n : Counts) (d : Nat) (hd : 2 ≤ d) (h3 : n.n3 = d)
    (h10 : n.n10 = 0) (h11 : n.n11 = 0) :
    (efron n).n10 = (1 / (d : ℚ)) * ∑ k in Finset.range d, (n.n2 - k * (n.n5 / (d : ℚ) ^ 2)) ∧
    (efron n).n11 =
      (1 / (d : ℚ)) * ∑ k in Finset.range d, (n.n2 - k * (n.n5 / (d : ℚ) ^ 2)) ^ 2 := by
  have hd1 : ¬ ((d : ℚ) ≤ 1) := by
    have : (2 : ℚ) ≤ d := by exact_mod_cast hd
    linarith
  unfold efron
  rw [h3]
  simp only [if_neg hd1, Nat.ceil_natCast, efron_fold, h10, h11, zero_add, h3]
  constructor
  · rw [← pow_two]; ring
  · simp only [← pow_two]; ring

/-! ### The routine returns when there are at least as many rows as covariates -/

theorem xsum2Loop_returns {inp : Input} (hv : inp.nvar ≤ inp.nused) (i2 : Int) (fuel k : Nat)
    (x : Nat → ℚ) : xsum2Loop inp i2 (fuel + 1) k x = some x := by
  have : ¬ (iAtSweep inp < (inp.nvar : Int)) := by
    unfold iAtSweep
    omega
  simp [xsum2Loop, this]

theorem growBody_returns {inp : Input} (hv : inp.nvar ≤ inp.nused) {F : Nat} (hF : 0 < F)
    (t : ℚ) (s : State) : ∃ s', growBody inp F t s = some s' := by
  obtain ⟨f, rfl⟩ : ∃ f, F = f + 1 := ⟨F - 1, by omega⟩
  unfold growBody
  by_cases h : isEvent inp t (growPre inp t s).i2
  · simp [h, event, xsum2Loop_returns hv]
  · simp [h]

theorem growLoop_returns {inp : Input} (hv : inp.nvar ≤ inp.nused) {F : Nat} (hF : 0 < F)
    (t : ℚ) (c : Nat) :
    ∀ s : State, 0 < c → s.person + 1 < c →
      ∃ s', growLoop inp F t c s = some s' ∧ s'.person ≤ s.person := by
  induction c with
  | zero => intro s h; omega
  | succ c ih =>
    intro s _ hp
    unfold growLoop
    by_cases hc : growCond inp t s
    · obtain ⟨a, ha⟩ := growBody_returns hv hF t s
      have hpa := (growBody_spec ha).2.2.2.1
      have hge : s.person ≥ 0 := hc.2.1
      obtain ⟨s', h1, h2⟩ := ih a (by omega) (by omega)
      exact ⟨s', by simp [hc, ha, h1], by omega⟩
    · exact ⟨s, by simp [hc], le_refl _⟩

theorem shrinkLoop_returns (inp : Input) (t : ℚ) (c : Nat) :
    ∀ s : State, 0 < c → s.person2 + 1 < c →
      ∃ s', shrinkLoop inp t c s = some s' ∧ s'.person2 ≤ s.person2 := by
  induction c with
  | zero => intro s h; omega
  | succ c ih =>
    intro s _ hp
    unfold shrinkLoop
    by_cases hc : shrinkCond inp t s
    · have hpa := (shrinkBody_frame inp s).2.2.2.2.2.1
      have hge : s.person2 ≥ 0 := hc.2.1
      obtain ⟨s', h1, h2⟩ := ih (shrinkBody inp s) (by omega) (by omega)
      exact ⟨s', by simp [hc, h1], by omega⟩
    · exact ⟨s, by simp [hc], le_refl _⟩

theorem walk1_returns (inp : Input) (c : Nat) :
    ∀ s : State, 0 < c → s.person + 1 < c →
      ∃ s', walk1 inp c s = some s' ∧ s'.person ≤ s.person ∧ s'.person2 = s.person2 := by
  induction c with
  | zero => intro s h; omega
  | succ c ih =>
    intro s _ hp
    unfold walk1
    by_cases hc : s.person ≥ 0 ∧ inp.strata s.i2 = s.istrat
    · have hge : s.person ≥ 0 := hc.1
      obtain ⟨s', h1, h2, h3⟩ := ih (walk1Step inp s) (by omega)
        (by simp only [walk1Step]; omega)
      simp only [walk1Step] at h2 h3
      exact ⟨s', by rw [if_pos hc, h1], by omega, h3⟩
    · exact ⟨s, by rw [if_neg hc], le_refl _, rfl⟩

theorem walk2_returns (inp : Input) (c : Nat) :
    ∀ s : State, 0 < c → s.person2 + 1 < c →
      ∃ s', walk2 inp c s = some s' ∧ s'.person2 ≤ s.person2 ∧ s'.person = s.person := by
  induction c with
  | zero => intro s h; omega
  | succ c ih =>
    intro s _ hp
    unfold walk2
    by_cases hc : s.person2 ≥ 0 ∧ inp.strata s.j2 = s.istrat
    · have hge : s.person2 ≥ 0 := hc.1
      obtain ⟨s', h1, h2, h3⟩ := ih (walk2Step inp s) (by omega)
        (by simp only [walk2Step]; omega)
      simp only [walk2Step] at h2 h3
      exact ⟨s', by rw [if_pos hc, h1], by omega, h3⟩
    · exact ⟨s, by rw [if_neg hc], le_refl _, rfl⟩

theorem timeStep_returns {inp : Input} (hv : inp.nvar ≤ inp.nused) {F : Nat} (ii jj : Nat)
    (s : State) (h1 : s.person + 1 < F) (h2 : s.person2 + 1 < F) (hF : 0 < F) :
    ∃ s', timeStep inp F ii jj s = some s' ∧ s'.person ≤ s.person ∧
      s'.person2 ≤ s.person2 := by
  obtain ⟨s1, g1, g2⟩ := growLoop_returns hv hF (inp.otime jj) F (timeInit inp s) hF h1
  have g3 := (growLoop_inv F g1).2.2.2.1
  simp only [timeInit] at g2 g3
  obtain ⟨s2, k1, k2⟩ := shrinkLoop_returns inp (inp.otime jj) F
    { s1 with j2 := inp.sort1 s1.person2 } hF (by simp only; omega)
  have k3 := (shrinkLoop_frame F k1).2.2.2.1
  simp only at k2 k3
  refine ⟨emit inp ii jj (inp.otime jj) { s2 with n := efron s2.n }, ?_, ?_, ?_⟩
  · simp [timeStep, g1, k1]
  · simp only [emit]; omega
  · simp only [emit]; omega

theorem timeLoop_returns {inp : Input} (hv : inp.nvar ≤ inp.nused) {F : Nat} (ii : Nat)
    (hF : 0 < F) (j : Nat) :
    ∀ s : State, s.person + 1 < F → s.person2 + 1 < F →
      ∃ s', timeLoop inp F ii j s = some s' ∧ s'.person ≤ s.person ∧
        s'.person2 ≤ s.person2 := by
  induction j with
  | zero => intro s _ _; exact ⟨s, rfl, le_refl _, le_refl _⟩
  | succ j ih =>
    intro s h1 h2
    obtain ⟨a, a1, a2, a3⟩ := timeStep_returns hv ii j s h1 h2 hF
    obtain ⟨s', b1, b2, b3⟩ := ih a (by omega) (by omega)
    exact ⟨s', by simp [timeLoop, a1, b1], by omega, by omega⟩

theorem stratBody_returns {inp : Input} (hv : inp.nvar ≤ inp.nused) {F : Nat} (ii : Nat)
    (hF : 0 < F) (s : State) (h1 : s.person + 1 < F) (h2 : s.person2 + 1 < F) :
    ∃ s', stratBody inp F ii s = some s' ∧ s'.person ≤ s.person ∧
      s'.person2 ≤ s.person2 := by
  obtain ⟨a, a1, a2, a3⟩ := timeLoop_returns hv ii hF inp.ntime (stratInit inp s) h1 h2
  simp only [stratInit] at a2 a3
  obtain ⟨b, b1, b2, b3⟩ := walk1_returns inp F a hF (by omega)
  obtain ⟨c, c1, c2, c3⟩ := walk2_returns inp F b hF (by omega)
  exact ⟨c, by simp [stratBody, a1, b1, c1], by omega, by omega⟩

theorem stratLoop_returns {inp : Input} (hv : inp.nvar ≤ inp.nused) {F : Nat} (hF : 0 < F)
    (r : Nat) :
    ∀ (ii : Nat) (s : State), s.person + 1 < F → s.person2 + 1 < F →
      ∃ s', stratLoop inp F r ii s = some s' := by
  induction r with
  | zero => intro ii s _ _; exact ⟨s, rfl⟩
  | succ r ih =>
    intro ii s h1 h2
    obtain ⟨a, a1, a2, a3⟩ := stratBody_returns hv ii hF s h1 h2
    obtain ⟨s', b1⟩ := ih (ii + 1) a (by omega) (by omega)
    exact ⟨s', by simp [stratLoop, a1, b1]⟩

theorem coxsurv2_returns {inp : Input} (hv : inp.nvar ≤ inp.nused) (u : Uninit) {F : Nat}
    (hF : inp.nused < F) : ∃ res, coxsurv2 inp u F = some res := by
  obtain ⟨s, hs⟩ := stratLoop_returns hv (by omega : 0 < F) (pass1 inp u).nstrat 0
    (initState inp u (pass1 inp u)) (by simp only [initState]; omega)
    (by simp only [initState]; omega)
  exact ⟨{ nstrat := (pass1 inp u).nstrat, rows := s.out }, by simp [coxsurv2, hs]⟩

/-! ### Reading off the rows of a concrete run -/

theorem rows_of_summary {α : Type} {o : Option Result} {f : OutRow → α} {l : List α}
    (h : (o.map fun x => x.rows.map f) = some l) :
    ∃ res, o = some res ∧ res.rows.map f = l := by
  cases o with
  | none => simp at h
  | some res => exact ⟨res, rfl, by simpa using h⟩

theorem row_of_summary {α : Type} {o : Option Result} {f : OutRow → α} {l : List α}
    (h : (o.map fun x => x.rows.map f) = some l) {a : α} (ha : a ∈ l) :
    ∃ res r, o = some res ∧ r ∈ res.rows ∧ f r = a := by
  obtain ⟨res, h1, h2⟩ := rows_of_summary h
  rw [← h2] at ha
  obtain ⟨r, hr, hf⟩ := List.mem_map.mp ha
  exact ⟨res, r, h1, hr, hf⟩

theorem rowFacts_count {inp : Input} {r : OutRow} (h : RowFacts inp r) :
    ∃ d : Nat, r.n.n3 = d := by
  obtain ⟨m, hm, _, _, h3, _⟩ := h
  exact ⟨_, by rw [hm, (efron_keeps m).2.2.1, h3]; rfl⟩

theorem evRisk_of_equal {inp : Input} {t w : ℚ} (l : List Int)
    (h : ∀ i ∈ l, isEvent inp t i → inp.wt i * inp.risk i = w) :
    evRisk inp t l = evCount inp t l * w := by
  induction l with
  | nil => simp [evRisk, evCount]
  | cons a l ih =>
    have ih := ih fun i hi => h i (List.mem_cons_of_mem _ hi)
    unfold evRisk evCount at ih ⊢
    by_cases ha : isEvent inp t a
    · have hw := h a (List.mem_cons_self _ _) ha
      simp only [List.filter_cons, ha, decide_True, if_true, List.map_cons, List.sum_cons,
        List.length_cons, ih, hw]
      push_cast
      ring
    · simp only [List.filter_cons, ha, decide_False]
      simpa using ih

/-! ### Pass 1 counts the blocks of equal labels -/

theorem pass1Step_spec (inp : Input) (s : Pass1) (i : Nat) :
    (pass1Step inp s i).istrat = lab2 inp i ∧
    (pass1Step inp s i).nstrat = s.nstrat + (if lab2 inp i ≠ s.istrat then 1 else 0) := by
  unfold pass1Step lab2
  by_cases h : inp.strata (inp.sort2 i) ≠ s.istrat
  · rw [if_pos h, if_pos h]
    exact ⟨rfl, rfl⟩
  · rw [if_neg h, if_neg h]
    exact ⟨(not_not.mp h).symm, rfl⟩

theorem pass1_fold (inp : Input) (i0 : Int) (k : Nat) :
    ((List.range' 1 k).foldl (pass1Step inp)
        { istrat := lab2 inp 0, nstrat := 1, i2 := i0 }).istrat = lab2 inp k ∧
    ((List.range' 1 k).foldl (pass1Step inp)
        { istrat := lab2 inp 0, nstrat := 1, i2 := i0 }).nstrat = 1 + chg (lab2 inp) k := by
  induction k with
  | zero => simp [chg]
  | succ k ih =>
    obtain ⟨h1, h2⟩ := ih
    rw [List.range'_1_concat, List.foldl_append]
    simp only [List.foldl_cons, List.foldl_nil]
    obtain ⟨e1, e2⟩ := pass1Step_spec inp ((List.range' 1 k).foldl (pass1Step inp)
      { istrat := lab2 inp 0, nstrat := 1, i2 := i0 }) (1 + k)
    rw [Nat.add_comm 1 k] at e1 e2 ⊢
    rw [e1, e2, h1, h2]
    exact ⟨rfl, by simp only [chg]; omega⟩

theorem pass1_nstrat (inp : Input) (u : Uninit) :
    (pass1 inp u).nstrat = 1 + chg (lab2 inp) (inp.nused - 1) :=
  (pass1_fold inp u.i2 (inp.nused - 1)).2

theorem grouped_card (lab : Nat → Int) (n : Nat) (hg : Grouped (n + 1) lab) :
    (((List.range (n + 1)).map lab).toFinset).card = 1 + chg lab n := by
  induction n with
  | zero => simp [chg, List.range_succ]
  | succ n ih =>
    have hg' : Grouped (n + 1) lab := fun r hr q hq p hp h => hg r (by omega) q hq p hp h
    have ih := ih hg'
    rw [List.range_succ, List.map_append, List.toFinset_append]
    simp only [List.map_cons, List.map_nil, List.toFinset_cons, List.toFinset_nil,
      insert_emptyc_eq, chg]
    by_cases hc : lab (n + 1) = lab n
    · have hmem : lab (n + 1) ∈ ((List.range (n + 1)).map lab).toFinset := by
        rw [List.mem_toFinset, List.mem_map]
        exact ⟨n, List.mem_range.mpr (by omega), hc.symm⟩
      have : ((List.range (n + 1)).map lab).toFinset ∪ {lab (n + 1)} =
          ((List.range (n + 1)).map lab).toFinset := by
        apply Finset.union_eq_left.mpr
        simpa using hmem
      rw [this, ih]
      simp [hc]
    · have hnot : lab (n + 1) ∉ ((List.range (n + 1)).map lab).toFinset := by
        rw [List.mem_toFinset, List.mem_map]
        rintro ⟨i, hi, he⟩
        have hi := List.mem_range.mp hi
        rcases Nat.lt_or_ge i n with hlt | hge
        · have := hg (n + 1) (by omega) n (by omega) i hlt he
          exact hc (he ▸ this).symm
        · have : i = n := by omega
          subst this
          exact hc he.symm
      rw [Finset.union_comm, ← Finset.insert_eq, Finset.card_insert_of_not_mem hnot, ih]
      simp [hc]
      omega

theorem distinctLabels_eq (inp : Input) (h0 : 0 < inp.nused)
    (hp : IsIndexPerm inp.nused inp.sort2) (hg : Grouped inp.nused (lab2 inp)) :
    distinctLabels inp = 1 + chg (lab2 inp) (inp.nused - 1) := by
  obtain ⟨n, hn⟩ : ∃ n, inp.nused = n + 1 := ⟨inp.nused - 1, by omega⟩
  unfold distinctLabels
  have hperm : List.Perm ((List.range inp.nused).map (lab2 inp))
      ((List.range inp.nused).map fun (i : Nat) => inp.strata i) := by
    have := List.Perm.map inp.strata hp
    simpa [List.map_map, Function.comp_def, lab2] using this
  rw [← hperm.dedup.length_eq, ← List.card_toFinset, hn]
  rw [hn] at hg
  simpa using grouped_card (lab2 inp) n hg

/-! ### Where the Step 1 cursor stands -/

theorem timeStep_decomp {inp : Input} {F ii jj : Nat} {s s' : State}
    (h : timeStep inp F ii jj s = some s') :
    ∃ s1 s2, growLoop inp F (inp.otime jj) F (timeInit inp s) = some s1 ∧
      shrinkLoop inp (inp.otime jj) F { s1 with j2 := inp.sort1 s1.person2 } = some s2 ∧
      s' = emit inp ii jj (inp.otime jj) { s2 with n := efron s2.n } := by
  unfold timeStep at h
  simp only [Option.bind_eq_some, Option.map_eq_some'] at h
  obtain ⟨s1, h1, s2, h2, rfl⟩ := h
  exact ⟨s1, s2, h1, h2, rfl⟩

theorem growLoop_pos {inp : Input} {F : Nat} {t : ℚ} (c : Nat) :
    ∀ {s s' : State} (q1 : Nat), s.person = (q1 : Int) - 1 → s.i2 = inp.sort2 s.person →
      growLoop inp F t c s = some s' →
      ∃ q1' : Nat, q1' ≤ q1 ∧ s'.person = (q1' : Int) - 1 ∧ s'.i2 = inp.sort2 s'.person ∧
        s'.grown = (List.range' q1' (q1 - q1')).map (fun (q : Nat) => inp.sort2 q) ++ s.grown ∧
        (∀ q : Nat, q1' ≤ q → q < q1 →
          t ≤ inp.tstop (inp.sort2 q) ∧ inp.strata q = s.istrat) ∧
        ¬ growCond inp t s' := by
  induction c with
  | zero => intro s s' q1 _ _ h; simp [growLoop] at h
  | succ c ih =>
    intro s s' q1 hp hi h
    unfold growLoop at h
    by_cases hc : growCond inp t s
    · rw [if_pos hc] at h
      simp only [Option.bind_eq_some] at h
      obtain ⟨a, ha, h⟩ := h
      obtain ⟨_, _, b3, b4, b5, _, b7, _⟩ := growBody_spec ha
      obtain ⟨c1, c2, c3⟩ := hc
      have hq : 1 ≤ q1 := by omega
      have hpa : a.person = ((q1 - 1 : Nat) : Int) - 1 := by rw [b4, hp]; omega
      obtain ⟨q1', d1, d2, d3, d4, d5, d6⟩ := ih (q1 - 1) hpa (by rw [b5, b4]) h
      refine ⟨q1', by omega, d2, d3, ?_, ?_, d6⟩
      · rw [d4, b7]
        have e : q1 - q1' = (q1 - 1 - q1') + 1 := by omega
        rw [e, List.range'_1_concat, List.map_append, List.append_assoc]
        congr 1
        simp only [List.map_cons, List.map_nil, List.singleton_append, List.cons.injEq, and_true]
        rw [hi, hp]
        congr 1
        omega
      · intro q h1 h2
        rcases Nat.lt_or_ge q (q1 - 1) with hlt | hge
        · have := d5 q h1 hlt
          rw [b3] at this
          exact this
        · have hqe : (q : Int) = s.person := by rw [hp]; omega
          rw [hi, ← hqe] at c1
          rw [← hqe] at c3
          exact ⟨c1, c3⟩
    · rw [if_neg hc] at h
      simp only [Option.some.injEq] at h
      subst h
      exact ⟨q1, le_refl _, hp, hi, by simp, fun q h1 h2 => by omega, hc⟩
theorem countP_range_eq_card (n : Nat) (P : Nat → Prop) [DecidablePred P] :
    (List.range n).countP (fun i => decide (P i)) = ((Finset.range n).filter P).card := by
  rw [List.countP_eq_length_filter]
  rfl

/-- As many rows carry the label `A` as places of the stop-sorted order do. -/
theorem label_count_eq {inp : Input} (hp : IsIndexPerm inp.nused inp.sort2) (A : Int) :
    ((Finset.range inp.nused).filter fun (i : Nat) => inp.strata i = A).card =
    ((Finset.range inp.nused).filter fun (q : Nat) => lab2 inp q = A).card := by
  rw [← countP_range_eq_card, ← countP_range_eq_card]
  have := List.Perm.countP_eq (fun (i : Int) => decide (inp.strata i = A)) hp
  rw [List.countP_map, List.countP_map] at this
  exact this.symm

/-- The Step 1 loop cannot leave the block of its stratum: if the block of the
label `A` ends at place `b-1` and the rows `p .. b-1` of the table carry the
label `A`, then place `p` carries the label `A`. -/
theorem label_of_raw {inp : Input} (hp : IsIndexPerm inp.nused inp.sort2)
    (hg : Grouped inp.nused (lab2 inp)) (A : Int) (p b : Nat) (hpb : p < b)
    (hb : b ≤ inp.nused)
    (hraw : ∀ q : Nat, p ≤ q → q < b → inp.strata q = A)
    (hend : b = inp.nused ∨ lab2 inp b ≠ A) (hlast : lab2 inp (b - 1) = A) :
    lab2 inp p = A := by
  by_contra hne
  have hpb1 : p < b - 1 := by
    rcases Nat.lt_or_ge p (b - 1) with h | h
    · exact h
    · have : p = b - 1 := by omega
      rw [this] at hne
      exact absurd hlast hne
  have h1 : ((Finset.range inp.nused).filter fun (q : Nat) => lab2 inp q = A) ⊆
      Finset.Ioo p b := by
    intro q hq
    rw [Finset.mem_filter, Finset.mem_range] at hq
    obtain ⟨hq1, hq2⟩ := hq
    rw [Finset.mem_Ioo]
    constructor
    · by_contra hle
      rcases Nat.lt_or_ge q p with h | h
      · have := hg (b - 1) (by omega) p hpb1 q h (by rw [hq2, hlast])
        exact hne (this.trans hq2)
      · have : q = p := by omega
        rw [this] at hq2
        exact hne hq2
    · by_contra hge
      have hbn : b < inp.nused := by omega
      have hbA : lab2 inp b ≠ A := by
        rcases hend with h | h
        · omega
        · exact h
      rcases Nat.lt_or_ge b q with h | h
      · have := hg q hq1 b h (b - 1) (by omega) (by rw [hq2, hlast])
        exact hbA (this.trans hlast)
      · have : q = b := by omega
        rw [this] at hq2
        exact hbA hq2
  have h2 : Finset.Ico p b ⊆
      (Finset.range inp.nused).filter fun (i : Nat) => inp.strata i = A := by
    intro q hq
    rw [Finset.mem_Ico] at hq
    rw [Finset.mem_filter, Finset.mem_range]
    exact ⟨by omega, hraw q hq.1 hq.2⟩
  have c1 := Finset.card_le_card h1
  have c2 := Finset.card_le_card h2
  rw [Nat.card_Ioo] at c1
  rw [Nat.card_Ico, label_count_eq hp] at c2
  omega
theorem timeStep_pos {inp : Input} {F ii jj : Nat} {s s' : State}
    (h : timeStep inp F ii jj s = some s') (q1 : Nat) (hp : s.person = (q1 : Int) - 1) :
    ∃ (q1' : Nat) (r : OutRow), q1' ≤ q1 ∧ s'.person = (q1' : Int) - 1 ∧
      s'.i2 = inp.sort2 s'.person ∧ s'.istrat = s.istrat ∧ s'.out = s.out ++ [r] ∧
      r.istrat = s.istrat ∧
      r.n.n3 = evCount inp (inp.otime jj)
        ((List.range' q1' (q1 - q1')).map fun (q : Nat) => inp.sort2 q) ∧
      (∀ q : Nat, q1' ≤ q → q < q1 →
        inp.otime jj ≤ inp.tstop (inp.sort2 q) ∧ inp.strata q = s.istrat) ∧
      ¬ (inp.tstop (inp.sort2 ((q1' : Int) - 1)) ≥ inp.otime jj ∧ (q1' : Int) - 1 ≥ 0 ∧
        inp.strata ((q1' : Int) - 1) = s.istrat) := by
  obtain ⟨s1, s2, h1, h2, rfl⟩ := timeStep_decomp h
  obtain ⟨q1', a1, a2, a3, a4, a5, a6⟩ := growLoop_pos F q1
    (by simpa [timeInit] using hp) (by simp [timeInit]) h1
  obtain ⟨g1, _, g3, _, _, _, l, g7, g8, _⟩ := growLoop_inv F h1
  obtain ⟨b1, _, b3, b4, b5, b6, b7, _⟩ := shrinkLoop_frame F h2
  simp only [timeInit, List.append_nil, zero_add] at a4 a5 g1 g3 g7 g8
  simp only at b1 b3 b4 b5 b6 b7
  refine ⟨q1', emitRow inp ii jj (inp.otime jj) (s2.irow - 1) { s2 with n := efron s2.n },
    a1, ?_, ?_, ?_, ?_, ?_, ?_, a5, ?_⟩
  · simp only [emit]; rw [b4, a2]
  · simp only [emit]; rw [b5, b4, a3]
  · simp only [emit]; rw [b3, g3]
  · simp only [emit]; rw [b1, g1]
  · simp only [emitRow]; rw [b3, g3]
  · simp only [emitRow]
    rw [(efron_keeps s2.n).2.2.1, b7, g8, ← a4, g7]
  · unfold growCond at a6
    rw [a3, a2, g3] at a6
    exact a6

/-- Over the trips of the time loop the Step 1 cursor moves down through
table places whose stratum is `istrat`. -/
theorem timeLoop_raw {inp : Input} {F ii : Nat} (j : Nat) :
    ∀ {s s' : State} (q1 : Nat), s.person = (q1 : Int) - 1 →
      timeLoop inp F ii j s = some s' →
      ∃ q1' : Nat, q1' ≤ q1 ∧ s'.person = (q1' : Int) - 1 ∧ s'.istrat = s.istrat ∧
        (0 < j → s'.i2 = inp.sort2 s'.person) ∧
        (∀ q : Nat, q1' ≤ q → q < q1 → inp.strata q = s.istrat) := by
  induction j with
  | zero =>
    intro s s' q1 hp h
    simp only [timeLoop, Option.some.injEq] at h
    subst h
    exact ⟨q1, le_refl _, hp, rfl, fun h => absurd h (lt_irrefl 0), fun q h1 h2 => by omega⟩
  | succ j ih =>
    intro s s' q1 hp h
    simp only [timeLoop, Option.bind_eq_some] at h
    obtain ⟨a, h1, h2⟩ := h
    obtain ⟨q2, r, a1, a2, a3, a4, _, _, _, a8, _⟩ := timeStep_pos h1 q1 hp
    obtain ⟨q3, b1, b2, b3, b4, b5⟩ := ih q2 a2 h2
    refine ⟨q3, by omega, b2, by rw [b3, a4], ?_, ?_⟩
    · intro _
      rcases Nat.eq_zero_or_pos j with hj | hj
      · subst hj
        simp only [timeLoop, Option.some.injEq] at h2
        subst h2
        exact a3
      · exact b4 hj
    · intro q h1 h2
      rcases Nat.lt_or_ge q q2 with hlt | hge
      · rw [← a4]; exact b5 q h1 hlt
      · exact (a8 q hge h2).2

theorem walk1_pos {inp : Input} (c : Nat) :
    ∀ {s s' : State} (q1 : Nat), s.person = (q1 : Int) - 1 → s.i2 = inp.sort2 s.person →
      walk1 inp c s = some s' →
      ∃ a : Nat, a ≤ q1 ∧ s'.person = (a : Int) - 1 ∧ s'.i2 = inp.sort2 s'.person ∧
        s'.istrat = s.istrat ∧
        (∀ q : Nat, a ≤ q → q < q1 → lab2 inp q = s.istrat) ∧
        (a = 0 ∨ lab2 inp (a - 1) ≠ s.istrat) := by
  induction c with
  | zero => intro s s' q1 _ _ h; simp [walk1] at h
  | succ c ih =>
    intro s s' q1 hp hi h
    unfold walk1 at h
    by_cases hc : s.person ≥ 0 ∧ inp.strata s.i2 = s.istrat
    · rw [if_pos hc] at h
      obtain ⟨c1, c2⟩ := hc
      have hq : 1 ≤ q1 := by omega
      obtain ⟨a, d1, d2, d3, d4, d5, d6⟩ := ih (q1 - 1)
        (by simp only [walk1Step]; rw [hp]; omega) (by simp only [walk1Step]) h
      simp only [walk1Step] at d4 d5 d6
      refine ⟨a, by omega, d2, d3, d4, ?_, d6⟩
      intro q h1 h2
      rcases Nat.lt_or_ge q (q1 - 1) with hlt | hge
      · exact d5 q h1 hlt
      · have hqe : s.person = (q : Int) := by rw [hp]; omega
        unfold lab2
        rw [← hqe, ← hi]
        exact c2
    · rw [if_neg hc] at h
      simp only [Option.some.injEq] at h
      subst h
      refine ⟨q1, le_refl _, hp, hi, rfl, fun q h1 h2 => by omega, ?_⟩
      rcases Nat.eq_zero_or_pos q1 with h0 | h0
      · exact Or.inl h0
      · right
        intro hl
        apply hc
        have hqe : s.person = ((q1 - 1 : Nat) : Int) := by rw [hp]; omega
        refine ⟨by rw [hp]; omega, ?_⟩
        rw [hi, hqe]
        exact hl
/-! ### Blocks of equal labels -/

theorem chg_mono (lab : Nat → Int) {p q : Nat} (h : p ≤ q) : chg lab p ≤ chg lab q := by
  induction q with
  | zero =>
    have : p = 0 := by omega
    rw [this]
  | succ q ih =>
    rcases Nat.lt_or_ge p (q + 1) with hlt | hge
    · have := ih (by omega)
      simp only [chg]
      omega
    · have : p = q + 1 := by omega
      rw [this]

theorem chg_eq_lab (lab : Nat → Int) {p q : Nat} (h : p ≤ q) (he : chg lab p = chg lab q) :
    lab p = lab q := by
  induction q with
  | zero =>
    have : p = 0 := by omega
    rw [this]
  | succ q ih =>
    rcases Nat.lt_or_ge p (q + 1) with hlt | hge
    · have hm := chg_mono lab (by omega : p ≤ q)
      simp only [chg] at he
      by_cases hc : lab (q + 1) ≠ lab q
      · rw [if_pos hc] at he
        omega
      · rw [if_neg hc] at he
        rw [not_not.mp hc]
        exact ih (by omega) (by omega)
    · have : p = q + 1 := by omega
      rw [this]

theorem chg_const (lab : Nat → Int) (A : Int) {a b : Nat}
    (hl : ∀ q, a ≤ q → q < b → lab q = A) {q : Nat} (h1 : a ≤ q) (h2 : q < b) :
    chg lab q = chg lab a := by
  induction q with
  | zero =>
    have : a = 0 := by omega
    rw [this]
  | succ q ih =>
    rcases Nat.lt_or_ge a (q + 1) with hlt | hge
    · have := ih (by omega) (by omega)
      simp only [chg]
      rw [hl (q + 1) h1 h2, hl q (by omega) (by omega)]
      simpa using this
    · have : a = q + 1 := by omega
      rw [this]

/-! ### Each trip of the stratum loop handles one block -/

theorem stratBody_pass {inp : Input} (hp : IsIndexPerm inp.nused inp.sort2)
    (hg : Grouped inp.nused (lab2 inp)) (ht : 0 < inp.ntime) {F ii : Nat} {s s' : State}
    {b : Nat} (hs : s.person = (b : Int) - 1) (hb1 : 1 ≤ b) (hbn : b ≤ inp.nused)
    (hend : b = inp.nused ∨ lab2 inp b ≠ lab2 inp (b - 1))
    (h : stratBody inp F ii s = some s') :
    ∃ a : Nat, a < b ∧ s'.person = (a : Int) - 1 ∧
      (∀ q, a ≤ q → q < b → lab2 inp q = lab2 inp (b - 1)) ∧
      (a = 0 ∨ lab2 inp (a - 1) ≠ lab2 inp (b - 1)) := by
  unfold stratBody at h
  simp only [Option.bind_eq_some] at h
  obtain ⟨s1, h1, s2, h2, h3⟩ := h
  have hA : (stratInit inp s).istrat = lab2 inp (b - 1) := by
    simp only [stratInit, lab2]
    rw [hs]
    congr 2
    omega
  obtain ⟨q1, a1, a2, a3, a4, a5⟩ := timeLoop_raw inp.ntime b
    (by simpa [stratInit] using hs) h1
  rw [hA] at a3 a5
  obtain ⟨a, c1, c2, _, _, c5, c6⟩ := walk1_pos F q1 a2 (a4 ht) h2
  rw [a3] at c5 c6
  obtain ⟨_, _, _, d4, _⟩ := walk2_frame F h3
  have hlab : ∀ q, q1 ≤ q → q < b → lab2 inp q = lab2 inp (b - 1) := by
    intro q g1 g2
    exact label_of_raw hp hg _ q b g2 hbn (fun q' g3 g4 => a5 q' (by omega) g4) hend rfl
  have hall : ∀ q, a ≤ q → q < b → lab2 inp q = lab2 inp (b - 1) := by
    intro q g1 g2
    rcases Nat.lt_or_ge q q1 with hlt | hge
    · exact c5 q g1 hlt
    · exact hlab q hge g2
  refine ⟨a, ?_, by rw [d4, c2], hall, c6⟩
  rcases Nat.lt_or_ge a b with hlt | hge
  · exact hlt
  · have hab : a = b := by omega
    rcases c6 with h0 | h0
    · omega
    · rw [hab] at h0
      exact absurd rfl h0

theorem stratLoop_pass {inp : Input} (hp : IsIndexPerm inp.nused inp.sort2)
    (hg : Grouped inp.nused (lab2 inp)) (ht : 0 < inp.ntime) {F : Nat} (r : Nat) :
    ∀ {ii : Nat} {s s' : State} {b : Nat}, PassStart inp s b →
      chg (lab2 inp) (b - 1) + 1 = r → stratLoop inp F r ii s = some s' →
      ∃ l, s'.out = s.out ++ l ∧ ∀ x ∈ l, ii ≤ x.ii ∧
        ∀ p, p < inp.nused → chg (lab2 inp) p + (x.ii - ii) + 1 = r →
          lab2 inp p = x.istrat := by
  induction r with
  | zero => intro ii s s' b _ hr _; omega
  | succ r ih =>
    intro ii s s' b hps hr h
    obtain ⟨hs, hb1, hbn, hend⟩ := hps
    simp only [stratLoop, Option.bind_eq_some] at h
    obtain ⟨s1, h1, h2⟩ := h
    obtain ⟨l0, a1, ⟨a2, _⟩, _⟩ := stratBody_rows h1
    obtain ⟨a, b1, b2, b3, b4⟩ := stratBody_pass hp hg ht hs hb1 hbn hend h1
    have hl0 : ∀ x ∈ l0, ii ≤ x.ii ∧
        ∀ p, p < inp.nused → chg (lab2 inp) p + (x.ii - ii) + 1 = r + 1 →
          lab2 inp p = x.istrat := by
      intro x hx
      obtain ⟨_, e2, e3, _⟩ := a2 x hx
      refine ⟨by omega, fun p hpn hc => ?_⟩
      rw [e3, hs]
      have hcp : chg (lab2 inp) p = chg (lab2 inp) (b - 1) := by omega
      have e : inp.strata (inp.sort2 ((b : Int) - 1)) = lab2 inp (b - 1) := by
        unfold lab2
        congr 2
        omega
      rw [e]
      rcases Nat.le_total p (b - 1) with hle | hle
      · exact chg_eq_lab _ hle hcp
      · exact (chg_eq_lab _ hle hcp.symm).symm
    rcases Nat.eq_zero_or_pos r with hr0 | hr0
    · subst hr0
      simp only [stratLoop, Option.some.injEq] at h2
      subst h2
      exact ⟨l0, a1, hl0⟩
    · have hca : chg (lab2 inp) (b - 1) = chg (lab2 inp) a :=
        chg_const _ _ b3 (by omega) (by omega)
      have ha0 : 1 ≤ a := by
        rcases Nat.eq_zero_or_pos a with h0 | h0
        · rw [h0] at hca
          simp only [chg] at hca
          omega
        · exact h0
      have hne : lab2 inp (a - 1) ≠ lab2 inp (b - 1) := by
        rcases b4 with h0 | h0
        · omega
        · exact h0
      have hla : lab2 inp a = lab2 inp (b - 1) := b3 a (le_refl _) b1
      have hstep : chg (lab2 inp) a = chg (lab2 inp) (a - 1) + 1 := by
        obtain ⟨a', rfl⟩ : ∃ a', a = a' + 1 := ⟨a - 1, by omega⟩
        simp only [chg, Nat.add_sub_cancel]
        simp only [Nat.add_sub_cancel] at hne
        rw [if_pos (by rw [hla]; exact fun h => hne h.symm)]
      have hps' : PassStart inp s1 a := by
        refine ⟨b2, ha0, by omega, Or.inr ?_⟩
        rw [hla]
        exact fun h => hne h.symm
      obtain ⟨l, c1, c2⟩ := ih hps' (by omega) h2
      refine ⟨l0 ++ l, by rw [c1, a1, List.append_assoc], ?_⟩
      intro x hx
      rcases List.mem_append.mp hx with hx | hx
      · exact hl0 x hx
      · obtain ⟨e1, e2⟩ := c2 x hx
        exact ⟨by omega, fun p hpn hc => e2 p hpn (by omega)⟩
/-! ### Counting the events of a block -/

theorem countP_range'_eq_card (a b : Nat) (P : Nat → Prop) [DecidablePred P] :
    (List.range' a (b - a)).countP (fun i => decide (P i)) =
      ((Finset.Ico a b).filter P).card := by
  rw [List.countP_eq_length_filter]
  rfl

/-- Counting rows and counting places of the stop-sorted order agree. -/
theorem perm_count_eq {inp : Input} (hp : IsIndexPerm inp.nused inp.sort2)
    (P : Int → Prop) [DecidablePred P] :
    ((Finset.range inp.nused).filter fun (i : Nat) => P i).card =
    ((Finset.range inp.nused).filter fun (q : Nat) => P (inp.sort2 q)).card := by
  rw [← countP_range_eq_card, ← countP_range_eq_card]
  have := List.Perm.countP_eq (fun (i : Int) => decide (P i)) hp
  rw [List.countP_map, List.countP_map] at this
  exact this.symm

theorem otime_strict {inp : Input}
    (ht : ∀ j < inp.ntime - 1, inp.otime j < inp.otime (j + 1 : Nat)) {j j' : Nat}
    (h1 : j < j') (h2 : j' < inp.ntime) : inp.otime j < inp.otime j' := by
  induction j' with
  | zero => omega
  | succ k ih =>
    have hk := ht k (by omega)
    rcases Nat.lt_or_ge j k with hlt | hge
    · exact lt_trans (ih hlt (by omega)) hk
    · have : j = k := by omega
      rw [this]
      exact hk

/-- A place with label `A` lies below the end `b` of the block of `A`. -/
theorem run_top {inp : Input} (hg : Grouped inp.nused (lab2 inp)) {A : Int} {b : Nat}
    (hb1 : 1 ≤ b) (hend : b = inp.nused ∨ lab2 inp b ≠ A) (hlast : lab2 inp (b - 1) = A)
    {p : Nat} (hpn : p < inp.nused) (hl : lab2 inp p = A) : p < b := by
  by_contra hge
  have hbn : b < inp.nused := by omega
  have hbA : lab2 inp b ≠ A := by
    rcases hend with h | h
    · omega
    · exact h
  rcases Nat.lt_or_ge b p with h | h
  · have := hg p hpn b h (b - 1) (by omega) (by rw [hl, hlast])
    exact hbA (this.trans hlast)
  · have : p = b := by omega
    rw [this] at hl
    exact hbA hl

/-- The places between a place with label `A` and the end of the block of `A`
carry the label `A`. -/
theorem run_mid {inp : Input} (hg : Grouped inp.nused (lab2 inp)) {A : Int} {b : Nat}
    (hbn : b ≤ inp.nused) (hlast : lab2 inp (b - 1) = A)
    {p q : Nat} (hl : lab2 inp p = A) (h1 : p ≤ q) (h2 : q < b) : lab2 inp q = A := by
  rcases Nat.lt_or_ge p q with hlt | hge
  · rcases Nat.lt_or_ge q (b - 1) with hlt2 | hge2
    · have := hg (b - 1) (by omega) q hlt2 p hlt (by rw [hl, hlast])
      exact this.trans hl
    · have : q = b - 1 := by omega
      rw [this]
      exact hlast
  · have : q = p := by omega
    rw [this]
    exact hl

/-- The events that one trip of the Step 1 loop counts at report time `t` are
the events of the block with exit time `t`. -/
theorem step_count {inp : Input} (hg : Grouped inp.nused (lab2 inp))
    (hsort : ∀ q < inp.nused, ∀ p < q, lab2 inp p = lab2 inp q →
      inp.tstop (inp.sort2 p) ≤ inp.tstop (inp.sort2 q))
    (hraw : ∀ p < inp.nused, inp.strata p = lab2 inp p)
    {A : Int} {b : Nat} (hb1 : 1 ≤ b) (hbn : b ≤ inp.nused)
    (hend : b = inp.nused ∨ lab2 inp b ≠ A) (hlast : lab2 inp (b - 1) = A)
    {t : ℚ} {q1' q1 : Nat} (h12 : q1' ≤ q1) (h1b : q1 ≤ b)
    (hstep : ∀ q : Nat, q1' ≤ q → q < q1 →
      t ≤ inp.tstop (inp.sort2 q) ∧ inp.strata q = A)
    (hcons : ∀ q : Nat, q1 ≤ q → q < b → t < inp.tstop (inp.sort2 q))
    (hexit : ¬ (inp.tstop (inp.sort2 ((q1' : Int) - 1)) ≥ t ∧ (q1' : Int) - 1 ≥ 0 ∧
      inp.strata ((q1' : Int) - 1) = A)) :
    evCount inp t ((List.range' q1' (q1 - q1')).map fun (q : Nat) => inp.sort2 q) =
      (cntEv inp A t : ℚ) := by
  unfold evCount cntEv
  rw [← List.countP_eq_length_filter, List.countP_map]
  have e := countP_range'_eq_card q1' q1 (fun (q : Nat) => isEvent inp t (inp.sort2 q))
  simp only [Function.comp_def]
  rw [e]
  congr 2
  ext q
  simp only [Finset.mem_filter, Finset.mem_Ico, Finset.mem_range]
  constructor
  · rintro ⟨⟨g1, g2⟩, g3⟩
    have hqn : q < inp.nused := by omega
    exact ⟨hqn, by rw [← hraw q hqn]; exact (hstep q g1 g2).2, g3⟩
  · rintro ⟨g1, g2, g3⟩
    have hqb : q < b := run_top hg hb1 hend hlast g1 g2
    refine ⟨⟨?_, ?_⟩, g3⟩
    · by_contra hlt
      have hq1 : 1 ≤ q1' := by omega
      have hcast : (q1' : Int) - 1 = ((q1' - 1 : Nat) : Int) := by omega
      have hm : lab2 inp (q1' - 1) = A := run_mid hg hbn hlast g2 (by omega) (by omega)
      apply hexit
      rw [hcast]
      refine ⟨?_, by omega, by rw [hraw (q1' - 1) (by omega)]; exact hm⟩
      rcases Nat.lt_or_ge q (q1' - 1) with h | h
      · have := hsort (q1' - 1) (by omega) q h (by rw [g2, hm])
        rw [g3.1] at this
        exact this
      · have : q = q1' - 1 := by omega
        rw [← this, g3.1]
    · by_contra hge
      have := hcons q (by omega) hqb
      rw [g3.1] at this
      exact lt_irrefl _ this
/-- Over the trips of the time loop for one block, the event counts written
add up to the events of the block at the report times handled. -/
theorem timeLoop_events {inp : Input} (hg : Grouped inp.nused (lab2 inp))
    (ht : ∀ j < inp.ntime - 1, inp.otime j < inp.otime (j + 1 : Nat))
    (hsort : ∀ q < inp.nused, ∀ p < q, lab2 inp p = lab2 inp q →
      inp.tstop (inp.sort2 p) ≤ inp.tstop (inp.sort2 q))
    (hraw : ∀ p < inp.nused, inp.strata p = lab2 inp p)
    {A : Int} {b : Nat} (hb1 : 1 ≤ b) (hbn : b ≤ inp.nused)
    (hend : b = inp.nused ∨ lab2 inp b ≠ A) (hlast : lab2 inp (b - 1) = A)
    {F ii : Nat} (j : Nat) :
    ∀ {s s' : State} (q1 : Nat), j ≤ inp.ntime → s.istrat = A →
      s.person = (q1 : Int) - 1 → q1 ≤ b →
      (∀ q : Nat, q1 ≤ q → q < b → ∀ j' < j, inp.otime (j' : Nat) < inp.tstop (inp.sort2 q)) →
      timeLoop inp F ii j s = some s' →
      ∃ l, s'.out = s.out ++ l ∧ (∀ x ∈ l, x.istrat = A) ∧
        (l.map fun r => r.n.n3).sum =
          ((∑ k in Finset.range j, cntEv inp A (inp.otime (k : Nat)) : Nat) : ℚ) := by
  induction j with
  | zero =>
    intro s s' q1 _ _ _ _ _ h
    simp only [timeLoop, Option.some.injEq] at h
    subst h
    exact ⟨[], by simp, by simp, by simp⟩
  | succ j ih =>
    intro s s' q1 hj hA hp h1b hcons h
    simp only [timeLoop, Option.bind_eq_some] at h
    obtain ⟨a, h1, h2⟩ := h
    obtain ⟨q2, r, a1, a2, _, a4, a5, a6, a7, a8, a9⟩ := timeStep_pos h1 q1 hp
    rw [hA] at a4 a6 a8 a9
    have hcnt := step_count hg hsort hraw hb1 hbn hend hlast a1 h1b a8
      (fun q g1 g2 => hcons q g1 g2 j (by omega)) a9
    have hcons' : ∀ q : Nat, q2 ≤ q → q < b → ∀ j' < j,
        inp.otime (j' : Nat) < inp.tstop (inp.sort2 q) := by
      intro q g1 g2 j' g3
      rcases Nat.lt_or_ge q q1 with hlt | hge
      · exact lt_of_lt_of_le (otime_strict ht g3 (by omega)) (a8 q g1 hlt).1
      · exact hcons q hge g2 j' (by omega)
    obtain ⟨l, b1, b2, b3⟩ := ih q2 (by omega) a4 a2 (by omega) hcons' h2
    refine ⟨r :: l, by rw [b1, a5]; simp, ?_, ?_⟩
    · intro x hx
      rcases List.mem_cons.mp hx with rfl | hx
      · exact a6
      · exact b2 x hx
    · rw [List.map_cons, List.sum_cons, b3, a7, hcnt, Finset.sum_range_succ]
      push_cast
      ring

/-- Summed over the report times, the events of a block with exit time equal
to the report time are the events of the block at a report time. -/
theorem sum_cntEv {inp : Input}
    (ht : ∀ j < inp.ntime - 1, inp.otime j < inp.otime (j + 1 : Nat)) (A : Int) :
    ∑ k in Finset.range inp.ntime, cntEv inp A (inp.otime (k : Nat)) =
      ((Finset.range inp.nused).filter fun (q : Nat) =>
        lab2 inp q = A ∧ atReportTime inp (inp.sort2 q)).card := by
  unfold cntEv
  rw [← Finset.card_biUnion]
  · congr 1
    ext q
    simp only [Finset.mem_biUnion, Finset.mem_filter, Finset.mem_range, isEvent, atReportTime]
    constructor
    · rintro ⟨k, hk, hq, hl, he, hs⟩
      exact ⟨hq, hl, hs, k, hk, he⟩
    · rintro ⟨hq, hl, hs, k, hk, he⟩
      exact ⟨k, hk, hq, hl, he, hs⟩
  · intro k hk k' hk' hne
    rw [Finset.disjoint_left]
    intro q hq hq'
    simp only [Finset.mem_filter, isEvent] at hq hq'
    have hk := Finset.mem_range.mp hk
    have hk' := Finset.mem_range.mp hk'
    have e : inp.otime (k : Nat) = inp.otime (k' : Nat) := by
      rw [← hq.2.2.1, ← hq'.2.2.1]
    rcases Nat.lt_or_ge k k' with hlt | hge
    · exact absurd e (ne_of_lt (otime_strict ht hlt hk'))
    · have hlt : k' < k := by omega
      exact absurd e.symm (ne_of_lt (otime_strict ht hlt hk))

theorem eventRowCount_eq {inp : Input} (hp : IsIndexPerm inp.nused inp.sort2) (A : Int) :
    eventRowCount inp A =
      ((Finset.range inp.nused).filter fun (q : Nat) =>
        lab2 inp q = A ∧ atReportTime inp (inp.sort2 q)).card := by
  unfold eventRowCount
  rw [← List.countP_eq_length_filter,
    countP_range_eq_card inp.nused (fun (i : Nat) => inp.strata i = A ∧ atReportTime inp i)]
  exact perm_count_eq hp (fun i => inp.strata i = A ∧ atReportTime inp i)

theorem stratBody_events {inp : Input} (hg : Grouped inp.nused (lab2 inp))
    (ht : ∀ j < inp.ntime - 1, inp.otime j < inp.otime (j + 1 : Nat))
    (hsort : ∀ q < inp.nused, ∀ p < q, lab2 inp p = lab2 inp q →
      inp.tstop (inp.sort2 p) ≤ inp.tstop (inp.sort2 q))
    (hraw : ∀ p < inp.nused, inp.strata p = lab2 inp p)
    {F ii : Nat} {s s' : State} {b : Nat} (hps : PassStart inp s b)
    (h : stratBody inp F ii s = some s') :
    ∃ l, s'.out = s.out ++ l ∧ (∀ x ∈ l, x.istrat = lab2 inp (b - 1)) ∧
      (l.map fun r => r.n.n3).sum =
        ((∑ k in Finset.range inp.ntime,
          cntEv inp (lab2 inp (b - 1)) (inp.otime (k : Nat)) : Nat) : ℚ) := by
  obtain ⟨hs, hb1, hbn, hend⟩ := hps
  unfold stratBody at h
  simp only [Option.bind_eq_some] at h
  obtain ⟨s1, h1, s2, h2, h3⟩ := h
  have hA : (stratInit inp s).istrat = lab2 inp (b - 1) := by
    simp only [stratInit, lab2]
    rw [hs]
    congr 2
    omega
  obtain ⟨l, a1, a2, a3⟩ := timeLoop_events hg ht hsort hraw hb1 hbn hend rfl inp.ntime b
    (le_refl _) hA (by simpa [stratInit] using hs) (le_refl _)
    (fun q g1 g2 => by omega) h1
  obtain ⟨b1, _, _⟩ := walk1_frame F h2
  obtain ⟨c1, _, _⟩ := walk2_frame F h3
  exact ⟨l, by rw [c1, b1, a1]; rfl, a2, a3⟩

/-- Over the trips of the stratum loop, the event counts written for a
stratum add up to the events of its block at the report times. -/
theorem stratLoop_events {inp : Input} (hp : IsIndexPerm inp.nused inp.sort2)
    (hg : Grouped inp.nused (lab2 inp))
    (ht : ∀ j < inp.ntime - 1, inp.otime j < inp.otime (j + 1 : Nat))
    (hsort : ∀ q < inp.nused, ∀ p < q, lab2 inp p = lab2 inp q →
      inp.tstop (inp.sort2 p) ≤ inp.tstop (inp.sort2 q))
    (hraw : ∀ p < inp.nused, inp.strata p = lab2 inp p)
    (hnt : 0 < inp.ntime) {F : Nat} (r : Nat) :
    ∀ {ii : Nat} {s s' : State} {b : Nat}, PassStart inp s b →
      chg (lab2 inp) (b - 1) + 1 = r → stratLoop inp F r ii s = some s' →
      ∃ l, s'.out = s.out ++ l ∧ (∀ x ∈ l, ∃ p, p < b ∧ lab2 inp p = x.istrat) ∧
        ∀ A, (∃ p, p < b ∧ lab2 inp p = A) →
          ((l.filter fun x => x.istrat = A).map fun x => x.n.n3).sum =
            ((∑ k in Finset.range inp.ntime, cntEv inp A (inp.otime (k : Nat)) : Nat) : ℚ) := by
  induction r with
  | zero => intro ii s s' b _ hr _; omega
  | succ r ih =>
    intro ii s s' b hps hr h
    have hps0 := hps
    obtain ⟨hs, hb1, hbn, hend⟩ := hps
    simp only [stratLoop, Option.bind_eq_some] at h
    obtain ⟨s1, h1, h2⟩ := h
    obtain ⟨l0, a1, a2, a3⟩ := stratBody_events hg ht hsort hraw hps0 h1
    obtain ⟨a, b1, b2, b3, b4⟩ := stratBody_pass hp hg hnt hs hb1 hbn hend h1
    have hf0 : l0.filter (fun x => x.istrat = lab2 inp (b - 1)) = l0 := by
      rw [List.filter_eq_self]
      intro x hx
      simpa using a2 x hx
    have hf0' : ∀ A, A ≠ lab2 inp (b - 1) → l0.filter (fun x => x.istrat = A) = [] := by
      intro A hA
      rw [List.filter_eq_nil_iff]
      intro x hx
      rw [a2 x hx]
      simpa using fun h => hA h.symm
    have hca : chg (lab2 inp) (b - 1) = chg (lab2 inp) a :=
      chg_const _ _ b3 (by omega) (by omega)
    rcases Nat.eq_zero_or_pos r with hr0 | hr0
    · subst hr0
      simp only [stratLoop, Option.some.injEq] at h2
      subst h2
      refine ⟨l0, a1, fun x hx => ⟨b - 1, by omega, (a2 x hx).symm⟩, ?_⟩
      rintro A ⟨p, hpb, hpA⟩
      have hcp : chg (lab2 inp) p = chg (lab2 inp) (b - 1) := by
        have := chg_mono (lab2 inp) (by omega : p ≤ b - 1)
        omega
      have hAe : A = lab2 inp (b - 1) := by
        rw [← hpA]
        exact chg_eq_lab _ (by omega) hcp
      rw [hAe, hf0, a3]
    · have ha0 : 1 ≤ a := by
        rcases Nat.eq_zero_or_pos a with h0 | h0
        · rw [h0] at hca
          simp only [chg] at hca
          omega
        · exact h0
      have hne : lab2 inp (a - 1) ≠ lab2 inp (b - 1) := by
        rcases b4 with h0 | h0
        · omega
        · exact h0
      have hla : lab2 inp a = lab2 inp (b - 1) := b3 a (le_refl _) b1
      have hstep : chg (lab2 inp) a = chg (lab2 inp) (a - 1) + 1 := by
        obtain ⟨a', rfl⟩ : ∃ a', a = a' + 1 := ⟨a - 1, by omega⟩
        simp only [chg, Nat.add_sub_cancel]
        simp only [Nat.add_sub_cancel] at hne
        rw [if_pos (by rw [hla]; exact fun h => hne h.symm)]
      have hps' : PassStart inp s1 a := by
        refine ⟨b2, ha0, by omega, Or.inr ?_⟩
        rw [hla]
        exact fun h => hne h.symm
      obtain ⟨l, c1, c2, c3⟩ := ih hps' (by omega) h2
      have hlow : ∀ p, p < a → lab2 inp p ≠ lab2 inp (b - 1) := by
        intro p hpa hl
        exact hne (run_mid hg hbn rfl hl (by omega) (by omega))
      refine ⟨l0 ++ l, by rw [c1, a1, List.append_assoc], ?_, ?_⟩
      · intro x hx
        rcases List.mem_append.mp hx with hx | hx
        · exact ⟨b - 1, by omega, (a2 x hx).symm⟩
        · obtain ⟨p, e1, e2⟩ := c2 x hx
          exact ⟨p, by omega, e2⟩
      · rintro A ⟨p, hpb, hpA⟩
        rw [List.filter_append, List.map_append, List.sum_append]
        by_cases hA : A = lab2 inp (b - 1)
        · have hfl : l.filter (fun x => x.istrat = A) = [] := by
            rw [List.filter_eq_nil_iff]
            intro x hx
            obtain ⟨p', e1, e2⟩ := c2 x hx
            rw [← e2, hA]
            simpa using hlow p' e1
          rw [hfl, hA, hf0, a3]
          simp
        · have hpa : p < a := by
            by_contra hge
            exact hA (hpA ▸ b3 p (by omega) hpb)
          rw [hf0' A hA, c3 A ⟨p, hpa, hpA⟩]
          simp


/-! ### The covariate loop of line 171 when there are more covariates than rows -/

theorem xsum2Loop_diverges {inp : Input} (h : iAtSweep inp < inp.nvar) (i2 : Int) :
    ∀ (fuel k : Nat) (x : Nat → ℚ), xsum2Loop inp i2 fuel k x = none := by
  intro fuel
  induction fuel with
  | zero => intro k x; rfl
  | succ fuel ih =>
    intro k x
    unfold xsum2Loop
    rw [if_pos h]
    exact ih _ _

theorem growLoop_diverges {inp : Input} (h : iAtSweep inp < inp.nvar) (F : Nat) {t : ℚ}
    {s : State} (hc : growCond inp t s) (he : isEvent inp t s.i2) (c : Nat) :
    growLoop inp F t c s = none := by
  cases c with
  | zero => rfl
  | succ c =>
    unfold growLoop
    rw [if_pos hc]
    have hb : growBody inp F t s = none := by
      unfold growBody
      simp only
      rw [(growPre_frame inp t s).2.2.2.2.1, if_pos he]
      unfold event
      simp only
      rw [xsum2Loop_diverges h]
      rfl
    rw [hb]
    rfl

/-! ### The tallies of cells 6, 7 and 8 -/

theorem growPre_tally (inp : Input) (t : ℚ) (s : State) :
    (growPre inp t s).n.n6 = s.n.n6 ∧ (growPre inp t s).n.n7 = s.n.n7 ∧
    (growPre inp t s).n.n8 = s.n.n8 + (if inp.position s.i2 > 1 then 1 else 0) := by
  unfold growPre
  by_cases h1 : inp.tstart s.i2 ≤ t <;> by_cases h2 : inp.position s.i2 > 1 <;>
    simp [h1, h2, addRisk, censor]

theorem event_tally {inp : Input} {F : Nat} {s s' : State} (h : event inp F s = some s') :
    s'.n.n6 = s.n.n6 + (if inp.position s.i2 > 1 then 1 else 0) ∧
    s'.n.n7 = s.n.n7 + (if inp.position s.i2 > 1 then inp.wt s.i2 else 0) ∧
    s'.n.n8 = s.n.n8 := by
  unfold event at h
  simp only [Option.map_eq_some'] at h
  obtain ⟨x, _, rfl⟩ := h
  by_cases h2 : inp.position s.i2 > 1 <;> simp [h2]

theorem growBody_tally {inp : Input} {F : Nat} {t : ℚ} {s s' : State}
    (h : growBody inp F t s = some s') :
    s'.n.n6 = s.n.n6 + (if isEvent inp t s.i2 ∧ inp.position s.i2 > 1 then 1 else 0) ∧
    s'.n.n7 = s.n.n7 +
      (if isEvent inp t s.i2 ∧ inp.position s.i2 > 1 then inp.wt s.i2 else 0) ∧
    s'.n.n8 = s.n.n8 + (if inp.position s.i2 > 1 then 1 else 0) := by
  unfold growBody at h
  simp only [Option.map_eq_some'] at h
  obtain ⟨a, ha, rfl⟩ := h
  obtain ⟨p6, p7, p8⟩ := growPre_tally inp t s
  have p5 := (growPre_frame inp t s).2.2.2.2.1
  rw [p5] at ha
  by_cases h3 : isEvent inp t s.i2
  · rw [if_pos h3] at ha
    obtain ⟨q6, q7, q8⟩ := event_tally ha
    rw [p5] at q6 q7
    simp only [h3, true_and]
    exact ⟨by rw [q6, p6], by rw [q7, p7], by rw [q8, p8]⟩
  · rw [if_neg h3] at ha
    simp only [Option.some.injEq] at ha
    subst ha
    simp only [h3, false_and, if_false, add_zero]
    exact ⟨p6, p7, p8⟩

theorem growLoop_tally {inp : Input} {F : Nat} {t : ℚ} (c : Nat) :
    ∀ {s s' : State}, growLoop inp F t c s = some s' →
      ∃ l, s'.grown = l ++ s.grown ∧ s'.n.n6 = s.n.n6 + finalCount inp t l ∧
        s'.n.n7 = s.n.n7 + finalWeight inp t l ∧ s'.n.n8 = s.n.n8 + flagCount inp l := by
  induction c with
  | zero => intro s s' h; simp [growLoop] at h
  | succ c ih =>
    intro s s' h
    unfold growLoop at h
    by_cases hc : growCond inp t s
    · rw [if_pos hc] at h
      simp only [Option.bind_eq_some] at h
      obtain ⟨a, ha, h⟩ := h
      obtain ⟨l, a7, a1, a2, a3⟩ := ih h
      obtain ⟨_, _, _, _, _, _, b7, _⟩ := growBody_spec ha
      obtain ⟨b1, b2, b3⟩ := growBody_tally ha
      refine ⟨l ++ [s.i2], ?_, ?_, ?_, ?_⟩
      · rw [a7, b7]; simp
      · rw [a1, b1]
        by_cases he : isEvent inp t s.i2 ∧ inp.position s.i2 > 1 <;>
          simp [finalCount, List.filter_append, he, add_assoc, add_comm]
      · rw [a2, b2]
        by_cases he : isEvent inp t s.i2 ∧ inp.position s.i2 > 1 <;>
          simp [finalWeight, List.filter_append, he, add_assoc, add_comm]
      · rw [a3, b3]
        by_cases he : inp.position s.i2 > 1 <;>
          simp [flagCount, List.filter_append, he, add_assoc, add_comm]
    · rw [if_neg hc] at h
      simp only [Option.some.injEq] at h
      subst h
      exact ⟨[], by simp, by simp [finalCount], by simp [finalWeight], by simp [flagCount]⟩

theorem shrinkBody_tally (inp : Input) (s : State) :
    (shrinkBody inp s).n.n6 = s.n.n6 ∧ (shrinkBody inp s).n.n7 = s.n.n7 ∧
    (shrinkBody inp s).n.n8 = s.n.n8 := by
  unfold shrinkBody removeRisk
  by_cases h1 : s.atrisk s.j2 ≠ 0 <;> by_cases h2 : s.n.n0 - 1 = 0 <;> simp [h1, h2]

theorem shrinkLoop_tally {inp : Input} {t : ℚ} (c : Nat) :
    ∀ {s s' : State}, shrinkLoop inp t c s = some s' →
      s'.n.n6 = s.n.n6 ∧ s'.n.n7 = s.n.n7 ∧ s'.n.n8 = s.n.n8 := by
  induction c with
  | zero => intro s s' h; simp [shrinkLoop] at h
  | succ c ih =>
    intro s s' h
    unfold shrinkLoop at h
    by_cases hc : shrinkCond inp t s
    · rw [if_pos hc] at h
      obtain ⟨a1, a2, a3⟩ := ih h
      obtain ⟨b1, b2, b3⟩ := shrinkBody_tally inp s
      exact ⟨a1.trans b1, a2.trans b2, a3.trans b3⟩
    · rw [if_neg hc] at h
      simp only [Option.some.injEq] at h
      subst h
      exact ⟨rfl, rfl, rfl⟩

theorem efron_tally (n : Counts) :
    (efron n).n6 = n.n6 ∧ (efron n).n7 = n.n7 ∧ (efron n).n8 = n.n8 := by
  unfold efron
  by_cases h : n.n3 ≤ 1
  · simp [h]
  · simp [if_neg h, efron_fold]

/-- The row written by a time step holds in its cells 6, 7 and 8 the tallies
over the rows the Step 1 loop consumed in that step. -/
theorem timeStep_tally {inp : Input} {F ii jj : Nat} {s s' : State}
    (h : timeStep inp F ii jj s = some s') :
    ∃ r, s'.out = s.out ++ [r] ∧ RowTally inp r := by
  obtain ⟨s1, s2, h1, h2, rfl⟩ := timeStep_decomp h
  obtain ⟨l, a7, a1, a2, a3⟩ := growLoop_tally F h1
  obtain ⟨g1, _⟩ := growLoop_inv F h1
  obtain ⟨b1, _, _, _, _, b6, _⟩ := shrinkLoop_frame F h2
  obtain ⟨c1, c2, c3⟩ := shrinkLoop_tally F h2
  obtain ⟨e1, e2, e3⟩ := efron_tally s2.n
  simp only [timeInit, List.append_nil, zero_add] at a7 a1 a2 a3 g1
  simp only at b1 b6 c1 c2 c3
  refine ⟨emitRow inp ii jj (inp.otime jj) (s2.irow - 1) { s2 with n := efron s2.n },
    ?_, ?_, ?_, ?_⟩
  · simp [emit, b1, g1]
  · simp only [emitRow]; rw [e1, c1, a1, b6, a7]
  · simp only [emitRow]; rw [e2, c2, a2, b6, a7]
  · simp only [emitRow]; rw [e3, c3, a3, b6, a7]

/-! ### A property of the row of every time step holds of every output row -/

theorem timeLoop_all {inp : Input} {F ii : Nat} (P : OutRow → Prop)
    (hstep : ∀ (jj : Nat) (s s' : State), timeStep inp F ii jj s = some s' →
      ∃ r, s'.out = s.out ++ [r] ∧ P r) (j : Nat) :
    ∀ {s s' : State}, timeLoop inp F ii j s = some s' →
      ∃ l, s'.out = s.out ++ l ∧ ∀ r ∈ l, P r := by
  induction j with
  | zero =>
    intro s s' h
    simp only [timeLoop, Option.some.injEq] at h
    subst h
    exact ⟨[], by simp, by simp⟩
  | succ j ih =>
    intro s s' h
    simp only [timeLoop, Option.bind_eq_some] at h
    obtain ⟨a, h1, h2⟩ := h
    obtain ⟨r, a1, a2⟩ := hstep j s a h1
    obtain ⟨l, b1, b2⟩ := ih h2
    refine ⟨r :: l, by rw [b1, a1]; simp, ?_⟩
    intro x hx
    rcases List.mem_cons.mp hx with rfl | hx
    · exact a2
    · exact b2 x hx

theorem stratLoop_all {inp : Input} {F : Nat} (P : OutRow → Prop)
    (hstep : ∀ (ii jj : Nat) (s s' : State), timeStep inp F ii jj s = some s' →
      ∃ r, s'.out = s.out ++ [r] ∧ P r) (r : Nat) :
    ∀ {ii : Nat} {s s' : State}, stratLoop inp F r ii s = some s' →
      ∃ l, s'.out = s.out ++ l ∧ ∀ x ∈ l, P x := by
  induction r with
  | zero =>
    intro ii s s' h
    simp only [stratLoop, Option.some.injEq] at h
    subst h
    exact ⟨[], by simp, by simp⟩
  | succ r ih =>
    intro ii s s' h
    simp only [stratLoop, Option.bind_eq_some] at h
    obtain ⟨s1, h1, h2⟩ := h
    unfold stratBody at h1
    simp only [Option.bind_eq_some] at h1
    obtain ⟨t1, g1, t2, g2, g3⟩ := h1
    obtain ⟨l0, a1, a2⟩ := timeLoop_all P (hstep ii) inp.ntime g1
    obtain ⟨b1, _⟩ := walk1_frame F g2
    obtain ⟨c1, _⟩ := walk2_frame F g3
    obtain ⟨l, d1, d2⟩ := ih h2
    refine ⟨l0 ++ l, ?_, ?_⟩
    · rw [d1, c1, b1, a1, List.append_assoc]
      rfl
    · intro x hx
      rcases List.mem_append.mp hx with hx | hx
      · exact a2 x hx
      · exact d2 x hx

theorem coxsurv2_all {inp : Input} {u : Uninit} {F : Nat} (P : OutRow → Prop)
    (hstep : ∀ (ii jj : Nat) (s s' : State), timeStep inp F ii jj s = some s' →
      ∃ r, s'.out = s.out ++ [r] ∧ P r) {res : Result}
    (h : coxsurv2 inp u F = some res) : ∀ r ∈ res.rows, P r := by
  unfold coxsurv2 at h
  simp only [Option.map_eq_some'] at h
  obtain ⟨s, hs, rfl⟩ := h
  obtain ⟨l, a1, a2⟩ := stratLoop_all P hstep _ hs
  simp only [initState, List.nil_append] at a1
  simp only
  rw [a1]
  exact a2

/-! ### The events a time step counts are the events of the block -/

theorem sorted_filter_eq {l1 l2 : List Nat} (h1 : l1.Sorted (· < ·)) (h2 : l2.Sorted (· < ·))
    (h : ∀ q, q ∈ l1 ↔ q ∈ l2) : l1 = l2 :=
  List.eq_of_perm_of_sorted ((List.perm_ext_iff_of_nodup h1.nodup h2.nodup).mpr h) h1 h2

/-- The events among the rows that one trip of the Step 1 loop consumes at
report time `t` are the events of the block with exit time `t`, in the order
of the places. -/
theorem step_list {inp : Input} (hg : Grouped inp.nused (lab2 inp))
    (hsort : ∀ q < inp.nused, ∀ p < q, lab2 inp p = lab2 inp q →
      inp.tstop (inp.sort2 p) ≤ inp.tstop (inp.sort2 q))
    (hraw : ∀ p < inp.nused, inp.strata p = lab2 inp p)
    {A : Int} {b : Nat} (hb1 : 1 ≤ b) (hbn : b ≤ inp.nused)
    (hend : b = inp.nused ∨ lab2 inp b ≠ A) (hlast : lab2 inp (b - 1) = A)
    {t : ℚ} {q1' q1 : Nat} (h12 : q1' ≤ q1) (h1b : q1 ≤ b)
    (hstep : ∀ q : Nat, q1' ≤ q → q < q1 →
      t ≤ inp.tstop (inp.sort2 q) ∧ inp.strata q = A)
    (hcons : ∀ q : Nat, q1 ≤ q → q < b → t < inp.tstop (inp.sort2 q))
    (hexit : ¬ (inp.tstop (inp.sort2 ((q1' : Int) - 1)) ≥ t ∧ (q1' : Int) - 1 ≥ 0 ∧
      inp.strata ((q1' : Int) - 1) = A)) :
    ((List.range' q1' (q1 - q1')).map fun (q : Nat) => inp.sort2 q).filter
        (fun i => isEvent inp t i) = blockEvents inp A t := by
  unfold blockEvents
  rw [List.filter_map]
  congr 1
  apply sorted_filter_eq
  · exact ((List.pairwise_lt_range' q1' (q1 - q1')).sublist (List.filter_sublist _))
  · exact ((List.sorted_lt_range inp.nused).sublist (List.filter_sublist _))
  intro q
  simp only [List.mem_filter, List.mem_range'_1, List.mem_range, Function.comp_apply,
    decide_eq_true_eq]
  constructor
  · rintro ⟨⟨g1, g2⟩, g3⟩
    have hqn : q < inp.nused := by omega
    exact ⟨hqn, by rw [← hraw q hqn]; exact (hstep q g1 (by omega)).2, g3⟩
  · rintro ⟨g1, g2, g3⟩
    have hqb : q < b := run_top hg hb1 hend hlast g1 g2
    have hlo : q1' ≤ q := by
      by_contra hlt
      have hq1 : 1 ≤ q1' := by omega
      have hcast : (q1' : Int) - 1 = ((q1' - 1 : Nat) : Int) := by omega
      have hm : lab2 inp (q1' - 1) = A := run_mid hg hbn hlast g2 (by omega) (by omega)
      apply hexit
      rw [hcast]
      refine ⟨?_, by omega, by rw [hraw (q1' - 1) (by omega)]; exact hm⟩
      rcases Nat.lt_or_ge q (q1' - 1) with h | h
      · have := hsort (q1' - 1) (by omega) q h (by rw [g2, hm])
        rw [g3.1] at this
        exact this
      · have : q = q1' - 1 := by omega
        rw [← this, g3.1]
    have hhi : q < q1 := by
      by_contra hge
      have := hcons q (by omega) hqb
      rw [g3.1] at this
      exact lt_irrefl _ this
    exact ⟨⟨hlo, by omega⟩, g3⟩

/-- The row written by a time step lists the rows at the places the Step 1
cursor passed. -/
theorem timeStep_grown {inp : Input} {F ii jj : Nat} {s s' : State}
    (h : timeStep inp F ii jj s = some s') (q1 : Nat) (hp : s.person = (q1 : Int) - 1) :
    ∃ (q1' : Nat) (r : OutRow), s'.person = (q1' : Int) - 1 ∧ s'.out = s.out ++ [r] ∧
      r.dtime = inp.otime jj ∧
      r.grown = (List.range' q1' (q1 - q1')).map fun (q : Nat) => inp.sort2 q := by
  obtain ⟨s1, s2, h1, h2, rfl⟩ := timeStep_decomp h
  obtain ⟨q1', _, a2, _, a4, _, _⟩ := growLoop_pos F q1
    (by simpa [timeInit] using hp) (by simp [timeInit]) h1
  obtain ⟨g1, _⟩ := growLoop_inv F h1
  obtain ⟨b1, _, _, b4, _, b6, _⟩ := shrinkLoop_frame F h2
  simp only [timeInit, List.append_nil] at a4 g1
  simp only at b1 b4 b6
  refine ⟨q1', emitRow inp ii jj (inp.otime jj) (s2.irow - 1) { s2 with n := efron s2.n },
    ?_, ?_, rfl, ?_⟩
  · simp only [emit]; rw [b4, a2]
  · simp only [emit]; rw [b1, g1]
  · simp only [emitRow]; rw [b6, a4]

/-- Over the trips of the time loop for one block, the events among the rows
consumed at a report time are the events of the block at that time. -/
theorem timeLoop_final {inp : Input} (hg : Grouped inp.nused (lab2 inp))
    (ht : ∀ j < inp.ntime - 1, inp.otime j < inp.otime (j + 1 : Nat))
    (hsort : ∀ q < inp.nused, ∀ p < q, lab2 inp p = lab2 inp q →
      inp.tstop (inp.sort2 p) ≤ inp.tstop (inp.sort2 q))
    (hraw : ∀ p < inp.nused, inp.strata p = lab2 inp p)
    {A : Int} {b : Nat} (hb1 : 1 ≤ b) (hbn : b ≤ inp.nused)
    (hend : b = inp.nused ∨ lab2 inp b ≠ A) (hlast : lab2 inp (b - 1) = A)
    {F ii : Nat} (j : Nat) :
    ∀ {s s' : State} (q1 : Nat), j ≤ inp.ntime → s.istrat = A →
      s.person = (q1 : Int) - 1 → q1 ≤ b →
      (∀ q : Nat, q1 ≤ q → q < b → ∀ j' < j, inp.otime (j' : Nat) < inp.tstop (inp.sort2 q)) →
      timeLoop inp F ii j s = some s' →
      ∃ l, s'.out = s.out ++ l ∧ ∀ x ∈ l,
        x.grown.filter (fun i => isEvent inp x.dtime i) = blockEvents inp x.istrat x.dtime := by
  induction j with
  | zero =>
    intro s s' q1 _ _ _ _ _ h
    simp only [timeLoop, Option.some.injEq] at h
    subst h
    exact ⟨[], by simp, by simp⟩
  | succ j ih =>
    intro s s' q1 hj hA hp h1b hcons h
    simp only [timeLoop, Option.bind_eq_some] at h
    obtain ⟨a, h1, h2⟩ := h
    obtain ⟨q2, r, a1, a2, _, a4, a5, a6, _, a8, a9⟩ := timeStep_pos h1 q1 hp
    obtain ⟨q2', r', c1, c2, c3, c4⟩ := timeStep_grown h1 q1 hp
    have hq : q2' = q2 := by
      rw [a2] at c1
      omega
    have hr : r' = r := by
      rw [a5] at c2
      simpa using (List.append_cancel_left c2).symm
    subst hq hr
    rw [hA] at a4 a6 a8 a9
    have hl := step_list hg hsort hraw hb1 hbn hend hlast a1 h1b a8
      (fun q g1 g2 => hcons q g1 g2 j (by omega)) a9
    have hcons' : ∀ q : Nat, q2' ≤ q → q < b → ∀ j' < j,
        inp.otime (j' : Nat) < inp.tstop (inp.sort2 q) := by
      intro q g1 g2 j' g3
      rcases Nat.lt_or_ge q q1 with hlt | hge
      · exact lt_of_lt_of_le (otime_strict ht g3 (by omega)) (a8 q g1 hlt).1
      · exact hcons q hge g2 j' (by omega)
    obtain ⟨l, b1, b2⟩ := ih q2' (by omega) a4 a2 (by omega) hcons' h2
    refine ⟨r' :: l, by rw [b1, a5]; simp, ?_⟩
    intro x hx
    rcases List.mem_cons.mp hx with rfl | hx
    · rw [c4, c3, a6]
      exact hl
    · exact b2 x hx

theorem stratBody_final {inp : Input} (hg : Grouped inp.nused (lab2 inp))
    (ht : ∀ j < inp.ntime - 1, inp.otime j < inp.otime (j + 1 : Nat))
    (hsort : ∀ q < inp.nused, ∀ p < q, lab2 inp p = lab2 inp q →
      inp.tstop (inp.sort2 p) ≤ inp.tstop (inp.sort2 q))
    (hraw : ∀ p < inp.nused, inp.strata p = lab2 inp p)
    {F ii : Nat} {s s' : State} {b : Nat} (hps : PassStart inp s b)
    (h : stratBody inp F ii s = some s') :
    ∃ l, s'.out = s.out ++ l ∧ ∀ x ∈ l,
      x.grown.filter (fun i => isEvent inp x.dtime i) = blockEvents inp x.istrat x.dtime := by
  obtain ⟨hs, hb1, hbn, hend⟩ := hps
  unfold stratBody at h
  simp only [Option.bind_eq_some] at h
  obtain ⟨s1, h1, s2, h2, h3⟩ := h
  have hA : (stratInit inp s).istrat = lab2 inp (b - 1) := by
    simp only [stratInit, lab2]
    rw [hs]
    congr 2
    omega
  obtain ⟨l, a1, a2⟩ := timeLoop_final hg ht hsort hraw hb1 hbn hend rfl inp.ntime b
    (le_refl _) hA (by simpa [stratInit] using hs) (le_refl _)
    (fun q g1 g2 => by omega) h1
  obtain ⟨b1, _, _⟩ := walk1_frame F h2
  obtain ⟨c1, _, _⟩ := walk2_frame F h3
  exact ⟨l, by rw [c1, b1, a1]; rfl, a2⟩

theorem stratLoop_final {inp : Input} (hp : IsIndexPerm inp.nused inp.sort2)
    (hg : Grouped inp.nused (lab2 inp))
    (ht : ∀ j < inp.ntime - 1, inp.otime j < inp.otime (j + 1 : Nat))
    (hsort : ∀ q < inp.nused, ∀ p < q, lab2 inp p = lab2 inp q →
      inp.tstop (inp.sort2 p) ≤ inp.tstop (inp.sort2 q))
    (hraw : ∀ p < inp.nused, inp.strata p = lab2 inp p)
    (hnt : 0 < inp.ntime) {F : Nat} (r : Nat) :
    ∀ {ii : Nat} {s s' : State} {b : Nat}, PassStart inp s b →
      chg (lab2 inp) (b - 1) + 1 = r → stratLoop inp F r ii s = some s' →
      ∃ l, s'.out = s.out ++ l ∧ ∀ x ∈ l,
        x.grown.filter (fun i => isEvent inp x.dtime i) =
          blockEvents inp x.istrat x.dtime := by
  induction r with
  | zero => intro ii s s' b _ hr _; omega
  | succ r ih =>
    intro ii s s' b hps hr h
    have hps0 := hps
    obtain ⟨hs, hb1, hbn, hend⟩ := hps
    simp only [stratLoop, Option.bind_eq_some] at h
    obtain ⟨s1, h1, h2⟩ := h
    obtain ⟨l0, a1, a2⟩ := stratBody_final hg ht hsort hraw hps0 h1
    obtain ⟨a, b1, b2, b3, b4⟩ := stratBody_pass hp hg hnt hs hb1 hbn hend h1
    have hca : chg (lab2 inp) (b - 1) = chg (lab2 inp) a :=
      chg_const _ _ b3 (by omega) (by omega)
    rcases Nat.eq_zero_or_pos r with hr0 | hr0
    · subst hr0
      simp only [stratLoop, Option.some.injEq] at h2
      subst h2
      exact ⟨l0, a1, a2⟩
    · have ha0 : 1 ≤ a := by
        rcases Nat.eq_zero_or_pos a with h0 | h0
        · rw [h0] at hca
          simp only [chg] at hca
          omega
        · exact h0
      have hne : lab2 inp (a - 1) ≠ lab2 inp (b - 1) := by
        rcases b4 with h0 | h0
        · omega
        · exact h0
      have hla : lab2 inp a = lab2 inp (b - 1) := b3 a (le_refl _) b1
      have hstep : chg (lab2 inp) a = chg (lab2 inp) (a - 1) + 1 := by
        obtain ⟨a', rfl⟩ : ∃ a', a = a' + 1 := ⟨a - 1, by omega⟩
        simp only [chg, Nat.add_sub_cancel]
        simp only [Nat.add_sub_cancel] at hne
        rw [if_pos (by rw [hla]; exact fun h => hne h.symm)]
      have hps' : PassStart inp s1 a := by
        refine ⟨b2, ha0, by omega, Or.inr ?_⟩
        rw [hla]
        exact fun h => hne h.symm
      obtain ⟨l, c1, c2⟩ := ih hps' (by omega) h2
      refine ⟨l0 ++ l, by rw [c1, a1, List.append_assoc], ?_⟩
      intro x hx
      rcases List.mem_append.mp hx with hx | hx
      · exact a2 x hx
      · exact c2 x hx

/-- The events of a block with a flag above 1 are, up to order, the rows of
the stratum that `finalExitRows` lists. -/
theorem blockEvents_perm {inp : Input} (hp : IsIndexPerm inp.nused inp.sort2) (A : Int)
    (t : ℚ) :
    List.Perm ((blockEvents inp A t).filter fun i => inp.position i > 1)
      ((finalExitRows inp A t).map fun (i : Nat) => (i : Int)) := by
  have h := List.Perm.filter
    (fun (i : Int) => decide (inp.strata i = A ∧ isEvent inp t i ∧ inp.position i > 1)) hp
  rw [List.filter_map, List.filter_map] at h
  unfold blockEvents finalExitRows
  rw [List.filter_map, List.filter_filter]
  have e1 : (List.range inp.nused).filter
      (fun (q : Nat) => (decide (inp.position (inp.sort2 q) > 1) &&
        decide (lab2 inp q = A ∧ isEvent inp t (inp.sort2 q)))) =
      (List.range inp.nused).filter
        ((fun (i : Int) => decide (inp.strata i = A ∧ isEvent inp t i ∧ inp.position i > 1)) ∘
          fun (p : Nat) => inp.sort2 p) := by
    apply List.filter_congr
    intro q _
    simp only [Function.comp_apply, lab2, Bool.decide_and, Bool.and_comm, Bool.and_assoc]
    exact Bool.and_left_comm _ _ _
  simp only [Function.comp_def] at e1 h ⊢
  rw [e1]
  exact h

/-- The tallies of cells 6 and 7 of a row whose events are the events of the
block are the count and the weight sum of `finalExitRows`. -/
theorem final_of_block {inp : Input} (hp : IsIndexPerm inp.nused inp.sort2) {A : Int}
    {t : ℚ} {l : List Int}
    (h : l.filter (fun i => isEvent inp t i) = blockEvents inp A t) :
    finalCount inp t l = finalExitCount inp A t ∧
    finalWeight inp t l = finalExitWeight inp A t := by
  have e : l.filter (fun i => decide (isEvent inp t i ∧ inp.position i > 1)) =
      (blockEvents inp A t).filter fun i => inp.position i > 1 := by
    rw [← h, List.filter_filter]
    apply List.filter_congr
    intro i _
    simp only [Bool.decide_and, Bool.and_comm]
  have hperm := blockEvents_perm hp A t
  unfold finalCount finalWeight finalExitCount finalExitWeight
  rw [e]
  constructor
  · rw [hperm.length_eq, List.length_map]
  · rw [(hperm.map inp.wt).sum_eq, List.map_map]
    rfl

/-! ## The claims -/

/-- C1 (fails on the code): on `shrinkInput`, which meets the input contract,
the row written for stratum 0 and report time 3 has at-risk count 0, while one
row of the stratum, `(1,9]`, covers time 3. The Step 3 loop steps through
`sort2` instead of `sort1`, so it removes row `(5,8]` twice. -/
theorem c1_at_risk_count_wrong :
    InputContract shrinkInput ∧
    ((coxsurv2 shrinkInput zeroUninit 4).bind fun r =>
      (r.rowAt 0).map fun x => x.key 0) = some (0, 3, 0) ∧
    coverCount shrinkInput 0 3 = 1 := by
  decide!

/-- C2: whenever the routine returns (it does once there are at least as many
rows as covariates and the fuel exceeds the row count), in every row it wrote
whose event count (field 3) is at least 2, that count is a number `d` and
field 10 equals `(1/d) * Σ_{k<d} (R - k*m)`, field 11 equals
`(1/d) * Σ_{k<d} (R - k*m)^2`, where `R` is field 2, `W` field 5 and
`m = W / d^2`. -/
theorem c2_efron_tied_sums (inp : Input) (u : Uninit) (F : Nat) :
    (inp.nvar ≤ inp.nused → inp.nused < F → ∃ res, coxsurv2 inp u F = some res) ∧
    ∀ res, coxsurv2 inp u F = some res → ∀ r ∈ res.rows, 2 ≤ r.n.n3 →
      ∃ d : Nat, r.n.n3 = d ∧
        r.n.n10 = (1 / (d : ℚ)) *
          ∑ k in Finset.range d, (r.n.n2 - k * (r.n.n5 / (d : ℚ) ^ 2)) ∧
        r.n.n11 = (1 / (d : ℚ)) *
          ∑ k in Finset.range d, (r.n.n2 - k * (r.n.n5 / (d : ℚ) ^ 2)) ^ 2 := by
  refine ⟨fun hv hF => coxsurv2_returns hv u hF, ?_⟩
  intro res h r hr h2
  have hf := ((coxsurv2_rows h).2.1 r hr).1
  obtain ⟨d, h3⟩ := rowFacts_count hf
  have hd : 2 ≤ d := by
    rw [h3] at h2
    exact_mod_cast h2
  obtain ⟨m, hm, h10, h11, _, _⟩ := hf
  obtain ⟨_, k2, k3, k5⟩ := efron_keeps m
  refine ⟨d, h3, ?_⟩
  rw [hm] at h3 ⊢
  rw [k2, k5]
  rw [k3] at h3
  exact efron_tied m d hd h3 h10 h11

/-- C2 at the scenario of the specification: the one row written has at-risk
count 3, event count 2, `m = W / d^2 = 1/2` and field 10 equal to 2.75, which
is the value of the formula. -/
theorem c2_efron_tied_sums_witness :
    ∃ res r, coxsurv2 scenario zeroUninit 4 = some res ∧ r ∈ res.rows ∧
      r.n.n0 = 3 ∧ r.n.n3 = 2 ∧ r.n.n5 / 2 ^ 2 = 1 / 2 ∧ r.n.n10 = 11 / 4 ∧
      ∃ d : Nat, r.n.n3 = d ∧
        r.n.n10 = (1 / (d : ℚ)) *
          ∑ k in Finset.range d, (r.n.n2 - k * (r.n.n5 / (d : ℚ) ^ 2)) := by
  have hn : ((coxsurv2 scenario zeroUninit 4).map fun x =>
      x.rows.map fun r => (r.n.n0, r.n.n3, r.n.n5, r.n.n10)) = some [(3, 2, 2, 11 / 4)] := by
    decide!
  obtain ⟨res, r, hres, hr, e⟩ := row_of_summary hn (List.mem_singleton.mpr rfl)
  simp only [Prod.mk.injEq] at e
  obtain ⟨e0, e3, e5, e10⟩ := e
  obtain ⟨d, h3, h10, _⟩ := (c2_efron_tied_sums scenario zeroUninit 4).2 res hres r hr
    (by rw [e3])
  exact ⟨res, r, hres, hr, e0, e3, by rw [e5]; norm_num, e10, d, h3, h10⟩

/-- C3: whenever the routine returns (it does once there are at least as many
rows as covariates and the fuel exceeds the row count), every row it wrote
whose event count (field 3) is at most 1 has field 10 equal to field 2 and
field 11 equal to the square of field 2. -/
theorem c3_efron_untied (inp : Input) (u : Uninit) (F : Nat) :
    (inp.nvar ≤ inp.nused → inp.nused < F → ∃ res, coxsurv2 inp u F = some res) ∧
    ∀ res, coxsurv2 inp u F = some res → ∀ r ∈ res.rows, r.n.n3 ≤ 1 →
      r.n.n10 = r.n.n2 ∧ r.n.n11 = r.n.n2 ^ 2 := by
  refine ⟨fun hv hF => coxsurv2_returns hv u hF, ?_⟩
  intro res h r hr h3
  obtain ⟨m, hm, _, _, _, _⟩ := ((coxsurv2_rows h).2.1 r hr).1
  obtain ⟨_, k2, k3, _⟩ := efron_keeps m
  rw [hm] at h3 ⊢
  rw [k3] at h3
  rw [k2, pow_two]
  exact efron_untied m h3

/-- C3 at `untiedInput`: the row written for report time 5 has one event, and
its fields 2, 10 and 11 are 2, 2 and 4. -/
theorem c3_efron_untied_witness :
    ∃ res r, coxsurv2 untiedInput zeroUninit 4 = some res ∧ r ∈ res.rows ∧
      r.dtime = 5 ∧ r.n.n3 = 1 ∧ r.n.n2 = 2 ∧ r.n.n10 = r.n.n2 ∧ r.n.n11 = r.n.n2 ^ 2 := by
  have hn : ((coxsurv2 untiedInput zeroUninit 4).map fun x =>
      x.rows.map fun r => (r.dtime, r.n.n3, r.n.n2)) = some [(20, 0, 0), (5, 1, 2)] := by
    decide!
  obtain ⟨res, r, hres, hr, e⟩ := row_of_summary hn
    (List.mem_cons_of_mem _ (List.mem_singleton.mpr rfl))
  simp only [Prod.mk.injEq] at e
  obtain ⟨et, e3, e2⟩ := e
  have h := (c3_efron_untied untiedInput zeroUninit 4).2 res hres r hr (by rw [e3])
  exact ⟨res, r, hres, hr, et, e3, e2, h.1, h.2⟩

/-- C4 as stated fails: on `tiedInput` the row written for report time 5 has
two tied events that each contribute `w = 1`, and `R = 3`, so the average of
`R` and `R - w` is 2.5, but field 10 is 2.75. -/
theorem c4_counterexample :
    ∃ res r, coxsurv2 tiedInput zeroUninit 5 = some res ∧ r ∈ res.rows ∧
      r.dtime = 5 ∧ r.n.n3 = 2 ∧ r.n.n2 = 3 ∧
      (∀ i ∈ r.grown, isEvent tiedInput r.dtime i → tiedInput.wt i * tiedInput.risk i = 1) ∧
      r.n.n10 ≠ (1 / (2 : ℚ)) * ∑ k in Finset.range 2, (r.n.n2 - k * 1) := by
  have hn : ((coxsurv2 tiedInput zeroUninit 5).map fun x =>
      x.rows.map fun r => (r.dtime, r.n.n3, r.n.n2, r.n.n10,
        decide (∀ i ∈ r.grown, isEvent tiedInput r.dtime i →
          tiedInput.wt i * tiedInput.risk i = 1))) =
      some [(20, 0, 0, 0, true), (5, 2, 3, 11 / 4, true)] := by
    decide!
  obtain ⟨res, r, hres, hr, e⟩ := row_of_summary hn
    (List.mem_cons_of_mem _ (List.mem_singleton.mpr rfl))
  simp only [Prod.mk.injEq, decide_eq_true_eq] at e
  obtain ⟨et, e3, e2, e10, ew⟩ := e
  refine ⟨res, r, hres, hr, et, e3, e2, ew, ?_⟩
  rw [e10, e2]
  norm_num [Finset.sum_range_succ]

/-- C4 (amended): whenever the routine returns (it does once there are at
least as many rows as covariates and the fuel exceeds the row count), in every
row it wrote whose event count (field 3) is at least 2 and whose events, the
rows the Step 1 loop counted at that time, all have
`weight * risk score = w`, the event count is a number `d` and field 10 is
the average of `R, R - w/d, R - 2w/d, ..., R - (d-1)w/d`, with `R` field 2. -/
theorem c4_efron_equal_weights (inp : Input) (u : Uninit) (F : Nat) :
    (inp.nvar ≤ inp.nused → inp.nused < F → ∃ res, coxsurv2 inp u F = some res) ∧
    ∀ res, coxsurv2 inp u F = some res → ∀ r ∈ res.rows, ∀ w : ℚ, 2 ≤ r.n.n3 →
      (∀ i ∈ r.grown, isEvent inp r.dtime i → inp.wt i * inp.risk i = w) →
      ∃ d : Nat, r.n.n3 = d ∧
        r.n.n10 = (1 / (d : ℚ)) * ∑ k in Finset.range d, (r.n.n2 - k * (w / d)) := by
  refine ⟨fun hv hF => coxsurv2_returns hv u hF, ?_⟩
  intro res h r hr w h2 hw
  have hf := ((coxsurv2_rows h).2.1 r hr).1
  obtain ⟨d, h3⟩ := rowFacts_count hf
  have hd : 2 ≤ d := by
    rw [h3] at h2
    exact_mod_cast h2
  obtain ⟨m, hm, h10, h11, m3, m5⟩ := hf
  obtain ⟨_, k2, k3, _⟩ := efron_keeps m
  refine ⟨d, h3, ?_⟩
  rw [hm] at h3 ⊢
  rw [k3] at h3
  rw [k2, (efron_tied m d hd h3 h10 h11).1]
  have hd0 : (d : ℚ) ≠ 0 := by
    have : (2 : ℚ) ≤ d := by exact_mod_cast hd
    intro h0
    rw [h0] at this
    norm_num at this
  have h5 : m.n5 / (d : ℚ) ^ 2 = w / d := by
    rw [m5, evRisk_of_equal r.grown hw, ← m3, h3]
    field_simp
    ring
  rw [h5]

/-- C4 (amended) at `tiedInput`: in the row for report time 5, `d = 2`,
`w = 1`, `R = 3` and field 10 is `(3 + 2.5) / 2 = 2.75`. -/
theorem c4_efron_equal_weights_witness :
    ∃ res r, coxsurv2 tiedInput zeroUninit 5 = some res ∧ r ∈ res.rows ∧
      r.n.n2 = 3 ∧ r.n.n3 = 2 ∧ r.n.n10 = 11 / 4 ∧
      ∃ d : Nat, r.n.n3 = d ∧
        r.n.n10 = (1 / (d : ℚ)) * ∑ k in Finset.range d, (r.n.n2 - k * ((1 : ℚ) / d)) := by
  have hn : ((coxsurv2 tiedInput zeroUninit 5).map fun x =>
      x.rows.map fun r => (r.dtime, r.n.n3, r.n.n2, r.n.n10,
        decide (∀ i ∈ r.grown, isEvent tiedInput r.dtime i →
          tiedInput.wt i * tiedInput.risk i = 1))) =
      some [(20, 0, 0, 0, true), (5, 2, 3, 11 / 4, true)] := by
    decide!
  obtain ⟨res, r, hres, hr, e⟩ := row_of_summary hn
    (List.mem_cons_of_mem _ (List.mem_singleton.mpr rfl))
  simp only [Prod.mk.injEq, decide_eq_true_eq] at e
  obtain ⟨_, e3, e2, e10, ew⟩ := e
  exact ⟨res, r, hres, hr, e2, e3, e10,
    (c4_efron_equal_weights tiedInput zeroUninit 5).2 res hres r hr 1 (by rw [e3]) ew⟩

/-- C5: whenever the routine returns (it does once there are at least as many
rows as covariates and the fuel exceeds the row count), the output rows it
wrote are, in the order written, the rows `ntime*nstrat - 1, ..., 1, 0`, so
each row is written exactly once; the record written in trip `ii` of the
stratum loop for the report time with index `jj` is at row `b*ntime + jj` with
`b = nstrat - 1 - ii`; and when the input has at least one row and `sort2` is a
permutation of the row indices along which equal labels are contiguous, that
record is the one of the stratum whose block is the `b`-th (0-based) in the
stop-sorted order. -/
theorem c5_rows_stratum_major (inp : Input) (u : Uninit) (F : Nat) :
    (inp.nvar ≤ inp.nused → inp.nused < F → ∃ res, coxsurv2 inp u F = some res) ∧
    ∀ res, coxsurv2 inp u F = some res →
      res.rows.map (fun r => r.irow) =
        (List.range (inp.ntime * res.nstrat)).reverse.map (fun (q : Nat) => (q : Int)) ∧
      ∀ r ∈ res.rows, r.ii < res.nstrat ∧ r.jj < inp.ntime ∧ r.dtime = inp.otime r.jj ∧
        r.irow = ((res.nstrat - 1 - r.ii : Nat) : Int) * inp.ntime + r.jj ∧
        (0 < inp.nused → IsIndexPerm inp.nused inp.sort2 → Grouped inp.nused (lab2 inp) →
          ∀ p, p < inp.nused → chg (lab2 inp) p = res.nstrat - 1 - r.ii →
            lab2 inp p = r.istrat) := by
  refine ⟨fun hv hF => coxsurv2_returns hv u hF, ?_⟩
  intro res h
  obtain ⟨hn, hrows, hmap⟩ := coxsurv2_rows h
  refine ⟨?_, ?_⟩
  · rw [hmap, Nat.mul_comm, List.range_eq_range', List.reverse_range', List.map_map,
      ← List.range_eq_range']
    apply List.map_congr_left
    intro q hq
    have := List.mem_range.mp hq
    simp only [Function.comp_apply]
    omega
  · intro r hr
    obtain ⟨_, _, e3, e4, e5, e6⟩ := hrows r hr
    refine ⟨by omega, e4, e5, ?_, ?_⟩
    · rw [e6]
      have : ((res.nstrat - 1 - r.ii : Nat) : Int) = (res.nstrat : Int) - 1 - r.ii := by omega
      rw [this]
      ring
    · intro h0 hp hg p hpn hc
      rcases Nat.eq_zero_or_pos inp.ntime with ht | ht
      · rw [ht] at e4
        omega
      · unfold coxsurv2 at h
        simp only [Option.map_eq_some'] at h
        obtain ⟨s, hs, rfl⟩ := h
        have hps : PassStart inp (initState inp u (pass1 inp u)) inp.nused :=
          ⟨rfl, h0, le_refl _, Or.inl rfl⟩
        obtain ⟨l, a1, a2⟩ := stratLoop_pass hp hg ht (pass1 inp u).nstrat hps
          (by rw [pass1_nstrat]; omega) hs
        simp only [initState, List.nil_append] at a1
        simp only at hr hc e3
        rw [a1] at hr
        exact (a2 r hr).2 p hpn (by omega)

/-- C5 at `twoStrata` (two report times, two strata): the rows are written
in the order 3, 2, 1, 0; rows 2 and 3 hold the records of stratum 1, whose
block is second in the stop-sorted order, rows 0 and 1 those of stratum 0,
each block in ascending time; for every row the stratum written is the label
of the places of its block. -/
theorem c5_rows_stratum_major_witness :
    ∃ res, coxsurv2 twoStrata zeroUninit 4 = some res ∧
      res.rows.map (fun r => (r.irow, r.istrat, r.dtime)) =
        [(3, 1, 20), (2, 1, 5), (1, 0, 20), (0, 0, 5)] ∧
      res.rows.map (fun r => r.irow) =
        (List.range (twoStrata.ntime * res.nstrat)).reverse.map (fun (q : Nat) => (q : Int)) ∧
      ∀ r ∈ res.rows, ∀ p, p < twoStrata.nused →
        chg (lab2 twoStrata) p = res.nstrat - 1 - r.ii → lab2 twoStrata p = r.istrat := by
  have hn : ((coxsurv2 twoStrata zeroUninit 4).map fun x =>
      x.rows.map fun r => (r.irow, r.istrat, r.dtime)) =
      some [(3, 1, 20), (2, 1, 5), (1, 0, 20), (0, 0, 5)] := by
    decide!
  obtain ⟨res, hres, e⟩ := rows_of_summary hn
  have h := (c5_rows_stratum_major twoStrata zeroUninit 4).2 res hres
  exact ⟨res, hres, e, h.1, fun r hr =>
    (h.2 r hr).2.2.2.2 (by decide) (by decide) (by decide)⟩

/-- C6: for an input with at least one row whose `sort2` is a permutation of
the row indices along which equal stratum labels are contiguous, whenever the
routine returns (it does once there are at least as many rows as covariates
and the fuel exceeds the row count), the stratum count it returns is the
number of distinct stratum labels among the rows. -/
theorem c6_nstrat_is_distinct_labels (inp : Input) (u : Uninit) (F : Nat)
    (h0 : 0 < inp.nused) (hp : IsIndexPerm inp.nused inp.sort2)
    (hg : Grouped inp.nused (lab2 inp)) :
    (inp.nvar ≤ inp.nused → inp.nused < F → ∃ res, coxsurv2 inp u F = some res) ∧
    ∀ res, coxsurv2 inp u F = some res → res.nstrat = distinctLabels inp := by
  refine ⟨fun hv hF => coxsurv2_returns hv u hF, ?_⟩
  intro res h
  rw [(coxsurv2_rows h).1, pass1_nstrat, distinctLabels_eq inp h0 hp hg]

/-- C6 at `twoStrata`: the routine returns stratum count 2 and the rows carry
2 distinct labels. -/
theorem c6_nstrat_is_distinct_labels_witness :
    ∃ res, coxsurv2 twoStrata zeroUninit 4 = some res ∧ res.nstrat = 2 ∧
      distinctLabels twoStrata = 2 ∧ res.nstrat = distinctLabels twoStrata := by
  obtain ⟨res, hres⟩ := (c6_nstrat_is_distinct_labels twoStrata zeroUninit 4 (by decide)
    (by decide) (by decide)).1 (by decide) (by decide)
  have h := (c6_nstrat_is_distinct_labels twoStrata zeroUninit 4 (by decide)
    (by decide) (by decide)).2 res hres
  have hd : distinctLabels twoStrata = 2 := by decide
  exact ⟨res, hres, by rw [h, hd], hd, h⟩

/-- C7 as stated fails: `gapInput`, which meets the input contract, has one
stratum with one event row whose exit time 3 lies between the report times 2
and 5; the event counts written for the stratum add up to 0, not 1. And on
`swappedEvents`, which meets the input contract too, the event row of
stratum 1 has exit time 5, a report time, but the event counts written for
stratum 1 add up to 0: the table place 2 under the Step 1 cursor holds a row
of stratum 0, so the test `strata[person]==istrat` of line 149 fails. -/
theorem c7_counterexample :
    InputContract gapInput ∧
    ((coxsurv2 gapInput zeroUninit 4).map fun res => stratumEventSum res 0) = some 0 ∧
    eventsInRange gapInput 0 = 1 ∧
    InputContract swappedEvents ∧
    ((coxsurv2 swappedEvents zeroUninit 4).map fun res => stratumEventSum res 1) = some 0 ∧
    eventsInRange swappedEvents 1 = 1 ∧ eventRowCount swappedEvents 1 = 1 := by
  decide!

/-- C7 (amended): for an input that meets the input contract and in which
every table place `p` holds a row of the same stratum as the row `sort2[p]`,
whenever the routine returns (it does once there are at least as many rows as
covariates and the fuel exceeds the row count), for every stratum the event
counts (field 3) of its records add up to the number of rows of the stratum
that are events with an exit time equal to one of the report times. -/
theorem c7_event_counts_at_report_times (inp : Input) (u : Uninit) (F : Nat)
    (hc : InputContract inp) (hraw : ∀ p < inp.nused, inp.strata p = lab2 inp p) :
    (inp.nvar ≤ inp.nused → inp.nused < F → ∃ res, coxsurv2 inp u F = some res) ∧
    ∀ res, coxsurv2 inp u F = some res → ∀ A, (∃ i, i < inp.nused ∧ inp.strata i = A) →
      stratumEventSum res A = eventRowCount inp A := by
  refine ⟨fun hv hF => coxsurv2_returns hv u hF, ?_⟩
  obtain ⟨h0, ht, _, hp, hg, _, hsort, _⟩ := hc
  rintro res h A ⟨i, hi, hiA⟩
  rcases Nat.eq_zero_or_pos inp.ntime with hnt | hnt
  · obtain ⟨_, _, hmap⟩ := coxsurv2_rows h
    rw [hnt] at hmap
    simp only [Nat.mul_zero, List.range_zero, List.map_nil, List.map_eq_nil_iff] at hmap
    have hno : ∀ i : Int, ¬ atReportTime inp i := by
      rintro i ⟨_, j, hj, _⟩
      omega
    unfold stratumEventSum eventRowCount
    rw [hmap]
    simp [hno]
  · unfold coxsurv2 at h
    simp only [Option.map_eq_some'] at h
    obtain ⟨s, hs, rfl⟩ := h
    have hps : PassStart inp (initState inp u (pass1 inp u)) inp.nused :=
      ⟨rfl, h0, le_refl _, Or.inl rfl⟩
    obtain ⟨l, a1, _, a3⟩ := stratLoop_events hp hg ht hsort hraw hnt (pass1 inp u).nstrat hps
      (by rw [pass1_nstrat]; omega) hs
    simp only [initState, List.nil_append] at a1
    unfold stratumEventSum
    simp only
    rw [a1, a3 A ⟨i, hi, by rw [← hraw i hi]; exact hiA⟩, sum_cntEv ht, eventRowCount_eq hp]

/-- C7 (amended) at `eventsInput`: the stratum has three event rows, with exit
times 2, 3 and 5, and report times 2 and 5; the event counts written add up
to 2. -/
theorem c7_event_counts_at_report_times_witness :
    ∃ res, coxsurv2 eventsInput zeroUninit 5 = some res ∧
      eventRowCount eventsInput 0 = 2 ∧ stratumEventSum res 0 = 2 ∧
      stratumEventSum res 0 = eventRowCount eventsInput 0 := by
  have hi : InputContract eventsInput := by decide
  have hr : ∀ p < eventsInput.nused, eventsInput.strata p = lab2 eventsInput p := by decide
  obtain ⟨res, hres⟩ := (c7_event_counts_at_report_times eventsInput zeroUninit 5 hi hr).1
    (by decide) (by decide)
  have h := (c7_event_counts_at_report_times eventsInput zeroUninit 5 hi hr).2 res hres 0
    ⟨0, by decide, by decide⟩
  have hd : eventRowCount eventsInput 0 = 2 := by decide!
  exact ⟨res, hres, hd, by rw [h, hd]; norm_num, h⟩

/-- C8 (fails on the code): on `tiedInput` the row written for report time 5
has at-risk count 3, event count 2 and running covariate sum 6; the mean
written to `xbar` is 3, the sum divided by the event count, not 2, the sum
divided by the at-risk count. -/
theorem c8_xbar_divides_by_event_count :
    ((coxsurv2 tiedInput zeroUninit 5).map fun x =>
      x.rows.map fun r => (r.dtime, r.n.n0, r.n.n3)) = some [(20, 0, 0), (5, 3, 2)] ∧
    ((coxsurv2 tiedInput zeroUninit 5).map fun x =>
      x.rows.map fun r => (r.xsum1 0, r.rx1 0, r.xsum1 0 / r.n.n0)) =
      some [(0, 0, 0), (6, 3, 2)] := by
  decide!

/-- C9 (fails on the code): on `tiedInput`, which meets the input contract,
the row written for stratum 0 and report time 5 counts 2 events, and the sum of
`weight * risk * x_0` over the event rows with exit time 5 is 3, but the
event-covariate cell written is 0: the loop of line 171 tests `i<nvar` and
makes no trip. -/
theorem c9_event_covariate_sum_stays_zero :
    InputContract tiedInput ∧
    ((coxsurv2 tiedInput zeroUninit 5).map fun x =>
      x.rows.map fun r => (r.istrat, r.dtime, r.n.n3, r.rx2 0)) =
      some [(0, 20, 0, 0), (0, 5, 2, 0)] ∧
    eventCovSum tiedInput 0 5 0 = 3 := by
  decide!

/-- C10 (fails on the code): `twoStrata` and `twoStrataSwapped` hold the same
rows and both meet the input contract; the second table has the row of
stratum 1 in front of the rows of stratum 0 and `sort1`, `sort2` re-indexed.
For stratum 1 at report time 5 the first run writes at-risk count 1, the
second at-risk count 0: line 149 tests `strata[person]`, the stratum of the
row at table place `person`, not of the row `i2` under the cursor. -/
theorem c10_table_order_changes_output :
    InputContract twoStrata ∧ InputContract twoStrataSwapped ∧
    ((coxsurv2 twoStrata zeroUninit 4).map fun x =>
      x.rows.map fun r => (r.istrat, r.dtime, r.n.n0)) =
      some [(1, 20, 0), (1, 5, 1), (0, 20, 0), (0, 5, 1)] ∧
    ((coxsurv2 twoStrataSwapped zeroUninit 4).map fun x =>
      x.rows.map fun r => (r.istrat, r.dtime, r.n.n0)) =
      some [(1, 20, 0), (1, 5, 0), (0, 20, 0), (0, 5, 1)] := by
  decide!

/-- C11 as stated fails: on `tiedInput`, which meets the input contract, two
rows of the stratum have exit time 5, event status and flag 3, each with
weight 1, but fields 8 and 9 of the row written for report time 5 are 3 and 3:
they also count the censored row `(2,5]`, whose flag is 3. Fields 6 and 7 hold
the count 2 and the weight sum 2. -/
theorem c11_counterexample :
    InputContract tiedInput ∧
    ((coxsurv2 tiedInput zeroUninit 5).map fun x =>
      x.rows.map fun r => (r.istrat, r.dtime, r.n.n8, r.n.n9)) =
      some [(0, 20, 0, 0), (0, 5, 3, 3)] ∧
    ((coxsurv2 tiedInput zeroUninit 5).map fun x =>
      x.rows.map fun r => (r.n.n6, r.n.n7)) = some [(0, 0), (2, 2)] ∧
    finalExitCount tiedInput 0 5 = 2 ∧ finalExitWeight tiedInput 0 5 = 2 := by
  decide!

/-- C11 (amended): for an input that meets the input contract and in which
every table place `p` holds a row of the same stratum as the row `sort2[p]`,
whenever the routine returns (it does once there are at least as many rows as
covariates and the fuel exceeds the row count), in every row it wrote, for
stratum `A` and report time `t`, fields 6 and 7 are the number and the weight
sum of the rows of stratum `A` with exit time `t`, event status and a
chain-position flag of 2 or 3. -/
theorem c11_final_exit_events (inp : Input) (u : Uninit) (F : Nat)
    (hc : InputContract inp) (hraw : ∀ p < inp.nused, inp.strata p = lab2 inp p) :
    (inp.nvar ≤ inp.nused → inp.nused < F → ∃ res, coxsurv2 inp u F = some res) ∧
    ∀ res, coxsurv2 inp u F = some res → ∀ r ∈ res.rows,
      r.n.n6 = finalExitCount inp r.istrat r.dtime ∧
      r.n.n7 = finalExitWeight inp r.istrat r.dtime := by
  refine ⟨fun hv hF => coxsurv2_returns hv u hF, ?_⟩
  obtain ⟨h0, ht, _, hp, hg, _, hsort, _⟩ := hc
  intro res h r hr
  obtain ⟨t6, t7, _⟩ := coxsurv2_all (RowTally inp) (fun _ _ _ _ hs => timeStep_tally hs) h r hr
  rcases Nat.eq_zero_or_pos inp.ntime with hnt | hnt
  · obtain ⟨_, _, hmap⟩ := coxsurv2_rows h
    rw [hnt] at hmap
    simp only [Nat.mul_zero, List.range_zero, List.map_nil, List.map_eq_nil_iff] at hmap
    rw [hmap] at hr
    simp at hr
  · unfold coxsurv2 at h
    simp only [Option.map_eq_some'] at h
    obtain ⟨s, hs, rfl⟩ := h
    have hps : PassStart inp (initState inp u (pass1 inp u)) inp.nused :=
      ⟨rfl, h0, le_refl _, Or.inl rfl⟩
    obtain ⟨l, a1, a2⟩ := stratLoop_final hp hg ht hsort hraw hnt (pass1 inp u).nstrat hps
      (by rw [pass1_nstrat]; omega) hs
    simp only [initState, List.nil_append] at a1
    simp only at hr
    rw [a1] at hr
    obtain ⟨f6, f7⟩ := final_of_block hp (a2 r hr)
    exact ⟨by rw [t6, f6], by rw [t7, f7]⟩

/-- C11 (amended) at `flagInput`: one row of the stratum has exit time 5, event
status and flag 3, with weight 2; fields 6 and 7 of the row written for
report time 5 are 1 and 2. -/
theorem c11_final_exit_events_witness :
    ∃ res r, coxsurv2 flagInput zeroUninit 5 = some res ∧ r ∈ res.rows ∧
      r.istrat = 0 ∧ r.dtime = 5 ∧ finalExitCount flagInput 0 5 = 1 ∧
      finalExitWeight flagInput 0 5 = 2 ∧ r.n.n6 = 1 ∧ r.n.n7 = 2 := by
  have hi : InputContract flagInput := by decide
  have hw : ∀ p < flagInput.nused, flagInput.strata p = lab2 flagInput p := by decide
  have hn : ((coxsurv2 flagInput zeroUninit 5).map fun x =>
      x.rows.map fun r => (r.istrat, r.dtime)) = some [(0, 20), (0, 5)] := by
    decide!
  obtain ⟨res, r, hres, hr, e⟩ := row_of_summary hn
    (List.mem_cons_of_mem _ (List.mem_singleton.mpr rfl))
  simp only [Prod.mk.injEq] at e
  obtain ⟨es, et⟩ := e
  have h := (c11_final_exit_events flagInput zeroUninit 5 hi hw).2 res hres r hr
  rw [es, et] at h
  have hc : finalExitCount flagInput 0 5 = 1 := by decide!
  have hwt : finalExitWeight flagInput 0 5 = 2 := by decide!
  exact ⟨res, r, hres, hr, es, et, hc, hwt, by rw [h.1, hc], by rw [h.2, hwt]⟩

/-- C12 as stated fails: on `flagInput`, which meets the input contract, the
Step 1 loop consumes the rows 3, 2 and 1 at report time 5; two of them have a
chain-position flag of 0 or 1, with weights 5 and 3, but fields 6 and 7 are 1
and 2, the count and the weight of the one event row, whose flag is 3. -/
theorem c12_counterexample :
    InputContract flagInput ∧
    ((coxsurv2 flagInput zeroUninit 5).map fun x =>
      x.rows.map fun r => (r.dtime, r.grown, r.n.n6, r.n.n7)) =
      some [(20, [], 0, 0), (5, [1, 2, 3], 1, 2)] ∧
    ((coxsurv2 flagInput zeroUninit 5).map fun x =>
      x.rows.map fun r => (midCount flagInput r.grown, midWeight flagInput r.grown)) =
      some [(0, 0), (2, 8)] := by
  decide!

/-- C12 (amended): whenever the routine returns (it does once there are at
least as many rows as covariates and the fuel exceeds the row count), in every
row it wrote field 8 is the number of the rows consumed by the Step 1 loop at
that report time whose chain-position flag is above 1 (flag 2 or 3), whether
or not the row was added to the risk set. -/
theorem c12_flagged_rows_consumed (inp : Input) (u : Uninit) (F : Nat) :
    (inp.nvar ≤ inp.nused → inp.nused < F → ∃ res, coxsurv2 inp u F = some res) ∧
    ∀ res, coxsurv2 inp u F = some res → ∀ r ∈ res.rows,
      r.n.n8 = flagCount inp r.grown := by
  refine ⟨fun hv hF => coxsurv2_returns hv u hF, ?_⟩
  intro res h r hr
  exact (coxsurv2_all (RowTally inp) (fun _ _ _ _ hs => timeStep_tally hs) h r hr).2.2

/-- C12 (amended) at `flagInput`: at report time 5 the Step 1 loop consumes the
rows 3, 2 and 1, of which only row 1 has a flag above 1, and field 8 is 1. -/
theorem c12_flagged_rows_consumed_witness :
    ∃ res r, coxsurv2 flagInput zeroUninit 5 = some res ∧ r ∈ res.rows ∧
      r.dtime = 5 ∧ r.grown = [1, 2, 3] ∧ flagCount flagInput r.grown = 1 ∧ r.n.n8 = 1 := by
  have hn : ((coxsurv2 flagInput zeroUninit 5).map fun x =>
      x.rows.map fun r => (r.dtime, r.grown, flagCount flagInput r.grown)) =
      some [(20, [], 0), (5, [1, 2, 3], 1)] := by
    decide!
  obtain ⟨res, r, hres, hr, e⟩ := row_of_summary hn
    (List.mem_cons_of_mem _ (List.mem_singleton.mpr rfl))
  simp only [Prod.mk.injEq] at e
  obtain ⟨et, eg, ef⟩ := e
  have h := (c12_flagged_rows_consumed flagInput zeroUninit 5).2 res hres r hr
  exact ⟨res, r, hres, hr, et, eg, ef, by rw [h, ef]⟩

/-- C13 (fails on the code): on `uninitInput`, which meets the input contract,
two runs that differ only in what the local `j2` holds before its first
assignment write different values to field 9 of the row for report time 5:
line 163 adds `wt[j2]`, and `j2` is first assigned on line 183. -/
theorem c13_output_depends_on_unassigned_local :
    InputContract uninitInput ∧
    ((coxsurv2 uninitInput zeroUninit 4).map fun x =>
      x.rows.map fun r => (r.dtime, r.n.n8, r.n.n9)) = some [(5, 2, 2)] ∧
    ((coxsurv2 uninitInput { zeroUninit with j2 := 1 } 4).map fun x =>
      x.rows.map fun r => (r.dtime, r.n.n8, r.n.n9)) = some [(5, 2, 4)] := by
  decide!

/-- C14 (fails on the code): on `shrinkInput`, which meets the input contract,
the row written for stratum 0 and report time 3 has at-risk weight sum 0 and
risk-weighted sum 0, while the row `(1,9]` of the stratum covers time 3, with
weight 1 and risk score 1. -/
theorem c14_at_risk_sums_wrong :
    InputContract shrinkInput ∧
    ((coxsurv2 shrinkInput zeroUninit 4).map fun x =>
      x.rows.map fun r => (r.istrat, r.dtime, r.n.n1, r.n.n2)) =
      some [(0, 20, 0, 0), (0, 8, 2, 2), (0, 3, 0, 0)] ∧
    coverWeight shrinkInput 0 3 = 1 ∧ coverRisk shrinkInput 0 3 = 1 := by
  decide!

/-- C15 (fails on the code): on `weightedInput` the Step 1 loop consumes the
rows 2 and 1 at report time 5, both with a flag above 1 and with weights 5 and
2; field 8 counts the two rows, but field 9 is 10, not 7: line 163 adds
`wt[j2]`, the weight of the row under the Step 3 cursor, for each of them.
Fields 3, 4 and 6, 7 count the one event row and its weight 2. -/
theorem c15_censor_weight_uses_other_cursor :
    InputContract weightedInput ∧
    ((coxsurv2 weightedInput zeroUninit 4).map fun x =>
      x.rows.map fun r => (r.dtime, r.n.n3, r.n.n4, r.n.n6, r.n.n7)) =
      some [(20, 0, 0, 0, 0), (5, 1, 2, 1, 2)] ∧
    ((coxsurv2 weightedInput zeroUninit 4).map fun x =>
      x.rows.map fun r => (r.grown, r.n.n8, r.n.n9, flagWeight weightedInput r.grown)) =
      some [([], 0, 0, 0), ([1, 2], 2, 10, 7)] := by
  decide!

/-- C16 (fails on the code): on `negInput`, which meets the input contract,
the row written for report time 2 has at-risk count 0 but weight sum 3 and
risk-weighted sum 3. At report time 3 the Step 3 loop takes the count to -1,
and the row `(1,2]` added at report time 2 brings it back to 0 without a
reset. -/
theorem c16_zero_count_with_nonzero_sums :
    InputContract negInput ∧
    ((coxsurv2 negInput zeroUninit 6).map fun x =>
      x.rows.map fun r => (r.dtime, r.n.n0, r.n.n1, r.n.n2)) =
      some [(20, 0, 0, 0), (6, 0, 0, 0), (3, -1, -1, -1), (2, 0, 3, 3)] := by
  decide!

/-- C17 (fails on the code): `loopInput` meets the input contract and has one
row, an event at the report time 5, and two covariates; whatever the locals
hold before their first assignment and whatever the bound on the number of
trips, the run does not return. The loop of line 171,
`for (k=0; i<nvar; k++)`, tests `i`, which is `nused = 1` and never changes,
against `nvar = 2`. -/
theorem c17_covariate_loop_never_ends :
    InputContract loopInput ∧ ∀ (u : Uninit) (F : Nat), coxsurv2 loopInput u F = none := by
  refine ⟨by decide, fun u F => ?_⟩
  have hg : growLoop loopInput F (loopInput.otime (0 : Nat)) F
      (timeInit loopInput (stratInit loopInput
        (initState loopInput u (pass1 loopInput u)))) = none := by
    apply growLoop_diverges (by decide) F _ _ F
    · simp only [growCond, timeInit, stratInit, initState]
      decide!
    · simp only [timeInit, stratInit, initState]
      decide!
  have hn : (pass1 loopInput u).nstrat = 1 := rfl
  have ht : loopInput.ntime = 1 := rfl
  unfold coxsurv2
  simp only [hn, stratLoop, stratBody, ht, timeLoop, timeStep, hg, Option.bind, Option.map]

/-- C18 (fails on the code): on `tiedInput`, which meets the input contract,
the walk-past loop of lines 229-232 reads `sort2[-1]` and the loop of lines
233-236 reads `sort1` at 2, 1, 0 and -1: each loop steps its cursor and
reads the array before the test `person>=0` is made again. On `scenario`,
which meets the input contract too, the Step 1 loop consumes every row at
report time 5, and line 179 reads `sort2` at 1, 0 and -1. -/
theorem c18_cursor_reads_below_zero :
    InputContract tiedInput ∧
    walkReads tiedInput zeroUninit 5 = some ([-1], [2, 1, 0, -1]) ∧
    InputContract scenario ∧
    growReads scenario 4 (scenario.otime (0 : Nat)) 4
      (timeInit scenario (stratInit scenario
        (initState scenario zeroUninit (pass1 scenario zeroUninit)))) = [1, 0, -1] := by
  decide!

/-- C19 (fails on the code): on `noEventInput`, which meets the input contract
and has one covariate, the row written for report time 8 has at-risk count 2
and event count 0, so line 223 divides the covariate sum by 0. -/
theorem c19_xbar_divides_by_zero :
    InputContract noEventInput ∧ noEventInput.nvar = 1 ∧
    ((coxsurv2 noEventInput zeroUninit 4).map fun x =>
      x.rows.map fun r => (r.dtime, r.n.n0, xbarDenominator r)) =
      some [(20, 0, none), (8, 2, some 0), (3, 0, none)] := by
  decide!

/-- C20: whenever the routine returns (it does once there are at least as many
rows as covariates and the fuel exceeds the row count), in every row it wrote
field 11 is at least the square of field 10, and the two are equal when the
event count (field 3) is at most 1 or the risk-weighted event sum (field 5)
is 0. -/
theorem c20_efron_second_moment (inp : Input) (u : Uninit) (F : Nat) :
    (inp.nvar ≤ inp.nused → inp.nused < F → ∃ res, coxsurv2 inp u F = some res) ∧
    ∀ res, coxsurv2 inp u F = some res → ∀ r ∈ res.rows,
      r.n.n10 ^ 2 ≤ r.n.n11 ∧ (r.n.n3 ≤ 1 ∨ r.n.n5 = 0 → r.n.n11 = r.n.n10 ^ 2) := by
  refine ⟨fun hv hF => coxsurv2_returns hv u hF, ?_⟩
  intro res h r hr
  have hf := ((coxsurv2_rows h).2.1 r hr).1
  obtain ⟨d, h3⟩ := rowFacts_count hf
  obtain ⟨m, hm, h10, h11, _, _⟩ := hf
  obtain ⟨_, _, k3, k5⟩ := efron_keeps m
  rw [hm] at h3 ⊢
  rw [k3] at h3 ⊢
  rw [k5]
  by_cases h1 : m.n3 ≤ 1
  · obtain ⟨e1, e2⟩ := efron_untied m h1
    rw [e1, e2, pow_two]
    exact ⟨le_refl _, fun _ => rfl⟩
  · have hd : 2 ≤ d := by
      by_contra hlt
      apply h1
      rw [h3]
      have : d ≤ 1 := by omega
      exact_mod_cast this
    obtain ⟨e1, e2⟩ := efron_tied m d hd h3 h10 h11
    have hdq : (0 : ℚ) < d := by
      have : 0 < d := by omega
      exact_mod_cast this
    rw [e1, e2]
    constructor
    · have hcs : (∑ k in Finset.range d, (m.n2 - k * (m.n5 / (d : ℚ) ^ 2))) ^ 2 ≤
          ((Finset.range d).card : ℚ) *
            ∑ k in Finset.range d, (m.n2 - k * (m.n5 / (d : ℚ) ^ 2)) ^ 2 :=
        sq_sum_le_card_mul_sum_sq
      rw [Finset.card_range] at hcs
      have hpos : (0 : ℚ) ≤ (1 / (d : ℚ)) ^ 2 := by positivity
      have hne : (d : ℚ) ≠ 0 := ne_of_gt hdq
      rw [mul_pow]
      refine le_trans (mul_le_mul_of_nonneg_left hcs hpos) (le_of_eq ?_)
      field_simp
      ring
    · rintro (h | h)
      · exact absurd h h1
      · rw [h]
        simp only [zero_div, mul_zero, sub_zero, Finset.sum_const, Finset.card_range,
          nsmul_eq_mul]
        field_simp

/-- C20 at `tiedInput`: the row written for report time 5 has two events,
field 10 is 11/4 and field 11 is 61/8, above the square 121/16. -/
theorem c20_efron_second_moment_witness :
    ∃ res r, coxsurv2 tiedInput zeroUninit 5 = some res ∧ r ∈ res.rows ∧
      r.dtime = 5 ∧ r.n.n10 = 11 / 4 ∧ r.n.n11 = 61 / 8 ∧ r.n.n10 ^ 2 ≤ r.n.n11 := by
  have hn : ((coxsurv2 tiedInput zeroUninit 5).map fun x =>
      x.rows.map fun r => (r.dtime, r.n.n10, r.n.n11)) =
      some [(20, 0, 0), (5, 11 / 4, 61 / 8)] := by
    decide!
  obtain ⟨res, r, hres, hr, e⟩ := row_of_summary hn
    (List.mem_cons_of_mem _ (List.mem_singleton.mpr rfl))
  simp only [Prod.mk.injEq] at e
  obtain ⟨et, e10, e11⟩ := e
  exact ⟨res, r, hres, hr, et, e10, e11,
    ((c20_efron_second_moment tiedInput zeroUninit 5).2 res hres r hr).1⟩
end Coxsurv2
